import Mathlib

/-!
Verification development for the ping-log analyzer in
`Network Testing/Ping Analysis/ping-tool.py` (with the synthetic-log
generator in `create_test_files.py`).

The Python code is shallowly embedded: text is `List Char`, Python floats
are modelled as exact rationals `ℚ`, regex searches are modelled by
executable scanners with the exact semantics of the concrete patterns used
by the script, and the analyzer's external environment (the ARP table
consulted by `get_mac_from_ip` and the downloaded OUI database consulted by
`get_manufacturer_from_mac`) is passed explicitly as an `Env` record.
-/

namespace Ping

/-- Environment of `analyze_ping_file` that is not part of the input file:
`arp` models `get_mac_from_ip` (an `arp` subprocess call keyed by the IP
text), `oui` models the global `OUI_DB` dictionary (keyed by the 6-char
OUI prefix), both of which are populated by I/O outside the parser. -/
structure Env where
  arp : List Char → Option (List Char)
  oui : List Char → Option (List Char)

/-- Python truthiness of `line.strip()`: a line is blank when it consists
of whitespace only. -/
def isBlankL (l : List Char) : Bool := l.all (·.isWhitespace)

/-- Maximal run of decimal digits at the front of `s`; this is the greedy
capture of `\d+` (or `\d*`) anchored at the current position. -/
def takeDigits : List Char → List Char
  | [] => []
  | c :: cs => if c.isDigit then c :: takeDigits cs else []

/-- Value of a run of decimal digits, as `int(...)` reads it. -/
def digitsToNat (ds : List Char) : ℕ := ds.foldl (fun n c => 10 * n + (c.toNat - 48)) 0

/-- Semantics of `re.search(r'<lit>(\d+)', line)` for a literal `lit`: the
digit run after the first occurrence of `lit` that is followed by at least
one digit (`re.search` scans positions left to right and `\d+` is greedy). -/
def searchNumAfter (pat : List Char) : List Char → Option (List Char)
  | [] => none
  | c :: cs =>
    if pat.isPrefixOf (c :: cs) && !(takeDigits ((c :: cs).drop pat.length)).isEmpty then
      some (takeDigits ((c :: cs).drop pat.length))
    else searchNumAfter pat cs

/-- Greedy match of `\d+\.?\d*` at the current position (used for the
`time=` capture): the digit run, a following dot if present, and the digit
run after that dot. -/
def takeDecimal (s : List Char) : List Char :=
  let ds := takeDigits s
  match s.drop ds.length with
  | '.' :: r2 => ds ++ '.' :: takeDigits r2
  | _ => ds

/-- Semantics of `re.search(r'<lit>(\d+\.?\d*)', line)`: the decimal
capture after the first occurrence of `lit` that is followed by at least
one digit. -/
def searchDecAfter (pat : List Char) : List Char → Option (List Char)
  | [] => none
  | c :: cs =>
    if pat.isPrefixOf (c :: cs) && !(takeDigits ((c :: cs).drop pat.length)).isEmpty then
      some (takeDecimal ((c :: cs).drop pat.length))
    else searchDecAfter pat cs

/-- Value of a captured decimal string (digits, optionally a dot and more
digits), as Python `float(...)` reads it, modelled exactly in `ℚ`. -/
def decToRat (s : List Char) : ℚ :=
  let ds := takeDigits s
  match s.drop ds.length with
  | '.' :: r2 =>
    (digitsToNat ds : ℚ) + (digitsToNat (takeDigits r2) : ℚ) / 10 ^ (takeDigits r2).length
  | _ => (digitsToNat ds : ℚ)

/-- Semantics of `re.search(r'^\[(\d+\.\d+)\]', line)`: an anchored match
of a bracketed float prefix, returning the two digit groups. Both `\d+`
groups are greedy; greediness is exact here because a digit run can never
be extended past `.` or `]`. -/
def tsCapture : List Char → Option (List Char × List Char)
  | '[' :: rest =>
    let d1 := takeDigits rest
    if d1.isEmpty then none
    else
      match rest.drop d1.length with
      | '.' :: r2 =>
        let d2 := takeDigits r2
        if d2.isEmpty then none
        else
          match r2.drop d2.length with
          | ']' :: _ => some (d1, d2)
          | _ => none
      | _ => none
  | _ => none

/-- Value of a captured `\d+\.\d+` timestamp, as `float(...)` reads it. -/
def tsToRat (p : List Char × List Char) : ℚ :=
  (digitsToNat p.1 : ℚ) + (digitsToNat p.2 : ℚ) / 10 ^ p.2.length

/-- The literal part of the `icmp_seq=(\d+)` pattern. -/
def icmpPat : List Char := "icmp_seq=".toList

/-- The literal part of the `time=(\d+\.?\d*)` pattern. -/
def timePat : List Char := "time=".toList

/-- Hex-digit class `[0-9A-Fa-f]` of the MAC-address pattern. -/
def isHexDigit (c : Char) : Bool :=
  c.isDigit || ('a' ≤ c && c ≤ 'f') || ('A' ≤ c && c ≤ 'F')

/-- Separator class `[:-]` of the MAC-address pattern. -/
def isMacSep (c : Char) : Bool := c == ':' || c == '-'

/-- Match of `([0-9A-Fa-f]{2}[:-]){5}([0-9A-Fa-f]{2})` anchored at the
current position (the pattern has fixed length 17). -/
def macAt : List Char → Option (List Char)
  | a :: b :: s1 :: c :: d :: s2 :: e :: f :: s3 :: g :: h :: s4 :: i :: j :: s5 :: k :: l :: _ =>
    if isHexDigit a && isHexDigit b && isMacSep s1 &&
       isHexDigit c && isHexDigit d && isMacSep s2 &&
       isHexDigit e && isHexDigit f && isMacSep s3 &&
       isHexDigit g && isHexDigit h && isMacSep s4 &&
       isHexDigit i && isHexDigit j && isMacSep s5 &&
       isHexDigit k && isHexDigit l then
      some [a, b, s1, c, d, s2, e, f, s3, g, h, s4, i, j, s5, k, l]
    else none
  | _ => none

/-- Semantics of `re.search` for the MAC-address pattern: leftmost match. -/
def searchMac : List Char → Option (List Char)
  | [] => none
  | c :: cs =>
    match macAt (c :: cs) with
    | some m => some m
    | none => searchMac cs

/-- The string `"Unknown"` used as fallback address and manufacturer. -/
def unknownStr : List Char := "Unknown".toList

/-- MAC normalization in `get_manufacturer_from_mac`:
`mac_address.upper().replace(':', '').replace('-', '').replace('.', '')`. -/
def normalizeMac (mac : List Char) : List Char :=
  (mac.map Char.toUpper).filter (fun c => !(c == ':' || c == '-' || c == '.'))

/-- Validation `re.match(r'^[0-9A-F]{12}$', mac)` on the normalized MAC. -/
def isValidMac12 (m : List Char) : Bool :=
  m.length == 12 && m.all (fun c => c.isDigit || ('A' ≤ c && c ≤ 'F'))

/-- Embedding of `get_manufacturer_from_mac`, with the loaded `OUI_DB`
passed as the lookup function `oui`; `manufacturer.split('\n')[0]` is the
prefix of the entry before the first newline. -/
def get_manufacturer_from_mac (oui : List Char → Option (List Char)) (mac : List Char) :
    List Char :=
  let m := normalizeMac mac
  if isValidMac12 m then
    match oui (m.take 6) with
    | some name => name.takeWhile (fun c => !(c == '\n'))
    | none => unknownStr
  else unknownStr

/-- One dotted-quad octet as accepted by `ipaddress.ip_address`: one to
three digits, value at most 255, no leading zero. -/
def validOctet (s : List Char) : Bool :=
  !s.isEmpty && s.length ≤ 3 && s.all (·.isDigit) && digitsToNat s ≤ 255 &&
    (s.length == 1 || s.head? != some '0')

/-- Embedding of `is_private_ip` for IPv4 dotted-quad texts (the only
address shape the repository's logs produce): true exactly when the text
parses as an IPv4 address lying in 10.0.0.0/8, 172.16.0.0/12,
192.168.0.0/16 or 169.254.0.0/16; anything unparsable is treated as
public, as the Python `except ValueError: return False` does. -/
def is_private_ip (s : List Char) : Bool :=
  match s.splitOn '.' with
  | [a, b, c, d] =>
    validOctet a && validOctet b && validOctet c && validOctet d &&
      (let A := digitsToNat a
       let B := digitsToNat b
       (A == 10) || (A == 172 && 16 ≤ B && B ≤ 31) || (A == 192 && B == 168) ||
         (A == 169 && B == 254))
  | _ => false

/-- The literal `"PING"` of the header pattern `PING\s+(\S+)(?:\s+\((\S+)\))?`. -/
def pingLit : List Char := "PING".toList

/-- Backtracking of `\((\S+)\)` on the greedy non-space run `m`: the group
is the longest nonempty prefix of `m` that is immediately followed (inside
`m`) by `)`. -/
def lastParenSplit (m : List Char) : Option (List Char) :=
  match m.reverse.findIdx? (· == ')') with
  | some j =>
    let idx := m.length - 1 - j
    if 1 ≤ idx then some (m.take idx) else none
  | none => none

/-- Continuation of the header pattern after the literal `PING`:
`\s+(\S+)` and then optionally `\s+\((\S+)\)`; returns the one or two
captured groups. Greediness of `\s+` and `\S+` is exact because neither
class can extend into the other. -/
def matchAfterPING (s : List Char) : Option (List Char × Option (List Char)) :=
  let ws := s.takeWhile (·.isWhitespace)
  if ws.isEmpty then none
  else
    let s1 := s.drop ws.length
    let w1 := s1.takeWhile (fun c => !c.isWhitespace)
    if w1.isEmpty then none
    else
      let s2 := s1.drop w1.length
      let ws2 := s2.takeWhile (·.isWhitespace)
      if ws2.isEmpty then some (w1, none)
      else
        match s2.drop ws2.length with
        | '(' :: s4 =>
          let m := s4.takeWhile (fun c => !c.isWhitespace)
          match lastParenSplit m with
          | some g => some (w1, some g)
          | none => some (w1, none)
        | _ => some (w1, none)

/-- Semantics of `re.search(r'PING\s+(\S+)(?:\s+\((\S+)\))?', line)`:
leftmost position where the whole pattern matches. -/
def searchPing : List Char → Option (List Char × Option (List Char))
  | [] => none
  | c :: cs =>
    if pingLit.isPrefixOf (c :: cs) then
      match matchAfterPING ((c :: cs).drop 4) with
      | some r => some r
      | none => searchPing cs
    else searchPing cs

/-- Python `min(l)` over a nonempty list (`0` is never used by the code on
the empty list; callers guard nonemptiness). -/
def listMinN (l : List ℕ) : ℕ := l.min?.getD 0

/-- Python `max(l)` over a nonempty list. -/
def listMaxN (l : List ℕ) : ℕ := l.max?.getD 0

/-- Embedding of the missing-sequence computation of `analyze_ping_file`:
`sorted(set(range(min(sequences), max(sequences) + 1)) - set(sequences))`,
guarded by `if sequences:`. `List.range'` with step 1 enumerates the
contiguous range ascendingly, and `filter` keeps the absent values. -/
def missingSequences (seqs : List ℕ) : List ℕ :=
  if seqs.isEmpty then []
  else (List.range' (listMinN seqs) (listMaxN seqs + 1 - listMinN seqs)).filter
    (fun n => !(seqs.contains n))

/-- The `sorted(intervals[-10:])[len(intervals[-10:]) // 2]` sliding median
of `analyze_ping_file`: middle element of the ascending sort of the last
(up to) ten intervals. -/
def medianLast10 (ivs : List ℚ) : ℚ :=
  let w := ivs.drop (ivs.length - 10)
  (List.insertionSort (· ≤ ·) w).getD (w.length / 2) 0

/-- One pass of the `for i in range(1, len(timestamps))` loop of
`analyze_ping_file`: `i` is the index of the current timestamp, `prev` the
previous timestamp, `ivs` and `abn` the `intervals` and
`abnormal_intervals` accumulators. -/
def intervalsAux (i : ℕ) (prev : ℚ) (ivs : List ℚ) (abn : List (ℕ × ℕ × ℚ × ℚ)) :
    List ℚ → List ℚ × List (ℕ × ℕ × ℚ × ℚ)
  | [] => (ivs, abn)
  | t :: rest =>
    let interval := t - prev
    let ivs2 := ivs ++ [interval]
    let med := medianLast10 ivs2
    let abn2 :=
      if 5 < ivs2.length ∧ 2 * med < interval then abn ++ [(i - 1, i, interval, med)] else abn
    intervalsAux (i + 1) t ivs2 abn2 rest

/-- The interval/abnormal-interval computation of `analyze_ping_file`,
guarded by `if len(timestamps) > 1:`. -/
def computeIntervals (ts : List ℚ) : List ℚ × List (ℕ × ℕ × ℚ × ℚ) :=
  match ts with
  | t0 :: t1 :: rest => intervalsAux 1 t0 [] [] (t1 :: rest)
  | _ => ([], [])

/-- Python truthiness `if timestamp:` of the captured float `d1.d2`: the
float is truthy (nonzero) exactly when one of its digit groups has nonzero
value. The lemma `tsTruthy_iff` below proves this Boolean equal to the
float-level test `tsToRat p ≠ 0` that the Python performs. -/
def tsTruthy (p : List Char × List Char) : Bool :=
  !(digitsToNat p.1 == 0 && digitsToNat p.2 == 0)

/-- The per-line extraction loop of `analyze_ping_file`: skip blank lines;
on each line search `icmp_seq=(\d+)` and `time=(\d+\.?\d*)`; when both
match, append the sequence number and the latency, and append the
timestamp when the file-wide flag is set, the line has a bracketed
timestamp prefix, and its value is truthy (Python `if timestamp:` drops a
timestamp equal to `0.0`). Returns `(ping_times, sequences, timestamps)`. -/
def extractObs (hasTs : Bool) : List (List Char) → List ℚ × List ℕ × List ℚ
  | [] => ([], [], [])
  | l :: ls =>
    let rest := extractObs hasTs ls
    if isBlankL l then rest
    else
      match searchNumAfter icmpPat l, searchDecAfter timePat l with
      | some sd, some td =>
        let tsv : Option (List Char × List Char) := if hasTs then tsCapture l else none
        (decToRat td :: rest.1, digitsToNat sd :: rest.2.1,
          match tsv with
          | some p => if tsTruthy p then tsToRat p :: rest.2.2 else rest.2.2
          | none => rest.2.2)
      | _, _ => rest

/-- The `has_timestamps` detection of `analyze_ping_file`:
`any(re.search(r'^\[\d+\.\d+\]', line) for line in lines if line.strip())`. -/
def hasTimestampsIn (lines : List (List Char)) : Bool :=
  lines.any (fun l => !isBlankL l && (tsCapture l).isSome)

/-- The dictionary returned by `analyze_ping_file` (minus the echoed
`filename`, carried separately by the caller). -/
structure Analysis where
  ip : List Char
  domain : Option (List Char)
  mac_address : Option (List Char)
  manufacturer : Option (List Char)
  times : List ℚ
  sequences : List ℕ
  timestamps : List ℚ
  missing_sequences : List ℕ
  intervals : List ℚ
  abnormal_intervals : List (ℕ × ℕ × ℚ × ℚ)
  has_timestamps : Bool
deriving Repr, DecidableEq

/-- Embedding of `analyze_ping_file`. The file read is factored out:
`file = none` models an unreadable file (the `except` branch prints and
returns `None`), `file = some lines` the result of `f.readlines()`. The
MAC search over the filename and the lines, the ARP fallback for private
targets, and the manufacturer lookup mirror lines 150-265 of the script;
a parse that extracts no observation returns `none` exactly as
`if not ping_times: return None` does. -/
def analyze_ping_file (env : Env) (filename : List Char) (file : Option (List (List Char))) :
    Option Analysis :=
  match file with
  | none => none
  | some lines =>
    let headerInfo := match lines.head? with
      | some l0 => searchPing l0
      | none => none
    let target_address := match headerInfo with
      | some (_, some ip) => ip
      | some (d, none) => d
      | none => unknownStr
    let target_domain := match headerInfo with
      | some (_, some _) => (headerInfo.map Prod.fst)
      | _ => none
    let mac := match searchMac filename with
      | some m => some m
      | none =>
        match lines.findSome? searchMac with
        | some m => some m
        | none => if is_private_ip target_address then env.arp target_address else none
    let hasTs := hasTimestampsIn lines
    let obs := extractObs hasTs lines
    if obs.1.isEmpty then none
    else
      let missing := missingSequences obs.2.1
      let ivents := computeIntervals obs.2.2
      some
        { ip := target_address
          domain := target_domain
          mac_address := mac
          manufacturer := mac.map (get_manufacturer_from_mac env.oui)
          times := obs.1
          sequences := obs.2.1
          timestamps := obs.2.2
          missing_sequences := missing
          intervals := ivents.1
          abnormal_intervals := ivents.2
          has_timestamps := hasTs }

/-- PDF-report packet-loss computation (`generate_pdf_report`, the branch
for a device whose `sequences` list is present and nonempty):
`expected = max(seq) - min(seq) + 1`, `received = len(seq)`, loss is
`(expected - received) / expected * 100`, and `0` when
`received > expected`. On an empty list the code sets loss to `0`. -/
def packet_loss (seqs : List ℕ) : ℚ :=
  if seqs.isEmpty then 0
  else
    let total_expected : ℕ := listMaxN seqs - listMinN seqs + 1
    let total_received : ℕ := seqs.length
    if total_received ≤ total_expected then
      ((total_expected : ℚ) - (total_received : ℚ)) / (total_expected : ℚ) * 100
    else 0

/-- Python `min(l)` over a nonempty list of floats. -/
def listMinQ (l : List ℚ) : ℚ := l.min?.getD 0

/-- Python `max(l)` over a nonempty list of floats. -/
def listMaxQ (l : List ℚ) : ℚ := l.max?.getD 0

/-- `min(all_times) if all_times else 0` of the report generators. -/
def minTime (ts : List ℚ) : ℚ := if ts.isEmpty then 0 else listMinQ ts

/-- `max(all_times) if all_times else 0` of the report generators. -/
def maxTime (ts : List ℚ) : ℚ := if ts.isEmpty then 0 else listMaxQ ts

/-- `sum(all_times) / len(all_times) if all_times else 0` of the report
generators. -/
def avgTime (ts : List ℚ) : ℚ := if ts.isEmpty then 0 else ts.sum / (ts.length : ℚ)

/-! ### Basic facts about the embedded operations -/

theorem tsToRat_eq_zero_iff (p : List Char × List Char) :
    tsToRat p = 0 ↔ digitsToNat p.1 = 0 ∧ digitsToNat p.2 = 0 := by
  have h1 : (0:ℚ) ≤ (digitsToNat p.1 : ℚ) := Nat.cast_nonneg _
  have h2 : (0:ℚ) ≤ (digitsToNat p.2 : ℚ) / 10 ^ p.2.length := by positivity
  rw [tsToRat, add_eq_zero_iff_of_nonneg h1 h2, div_eq_zero_iff]
  norm_num

/-- The digit-level truthiness test used in `extractObs` agrees with the
float-level test `timestamp != 0.0` that Python's `if timestamp:`
performs. -/
theorem tsTruthy_iff (p : List Char × List Char) : tsTruthy p = true ↔ tsToRat p ≠ 0 := by
  rw [tsTruthy, Ne, tsToRat_eq_zero_iff]
  simp only [Bool.not_eq_true', Bool.and_eq_false_iff, beq_eq_false_iff_ne, Ne]
  tauto

theorem min?_mem_le {α : Type} [LinearOrder α] {l : List α} {a : α} (hm : l.min? = some a) :
    a ∈ l ∧ ∀ b ∈ l, a ≤ b := by
  haveI : Std.Antisymm ((· : α) ≤ ·) := ⟨fun h1 h2 => le_antisymm h1 h2⟩
  rw [List.min?_eq_some_iff (fun x => le_refl x) (fun x y => min_choice x y)
    (fun x y z => le_min_iff)] at hm
  exact ⟨hm.1, hm.2⟩

theorem max?_mem_le {α : Type} [LinearOrder α] {l : List α} {a : α} (hm : l.max? = some a) :
    a ∈ l ∧ ∀ b ∈ l, b ≤ a := by
  haveI : Std.Antisymm ((· : α) ≤ ·) := ⟨fun h1 h2 => le_antisymm h1 h2⟩
  rw [List.max?_eq_some_iff (fun x => le_refl x) (fun x y => max_choice x y)
    (fun x y z => max_le_iff)] at hm
  exact ⟨hm.1, hm.2⟩

theorem min?_eq_some_listMinN {l : List ℕ} (h : l ≠ []) : l.min? = some (listMinN l) := by
  cases hm : l.min? with
  | none => exact absurd (List.min?_eq_none_iff.mp hm) h
  | some a => simp [listMinN, hm]

theorem max?_eq_some_listMaxN {l : List ℕ} (h : l ≠ []) : l.max? = some (listMaxN l) := by
  cases hm : l.max? with
  | none => exact absurd (List.max?_eq_none_iff.mp hm) h
  | some a => simp [listMaxN, hm]

theorem listMinN_mem {l : List ℕ} (h : l ≠ []) : listMinN l ∈ l :=
  (min?_mem_le (min?_eq_some_listMinN h)).1

theorem listMinN_le {l : List ℕ} {b : ℕ} (hb : b ∈ l) : listMinN l ≤ b :=
  (min?_mem_le (min?_eq_some_listMinN (List.ne_nil_of_mem hb))).2 b hb

theorem listMaxN_mem {l : List ℕ} (h : l ≠ []) : listMaxN l ∈ l :=
  (max?_mem_le (max?_eq_some_listMaxN h)).1

theorem le_listMaxN {l : List ℕ} {b : ℕ} (hb : b ∈ l) : b ≤ listMaxN l :=
  (max?_mem_le (max?_eq_some_listMaxN (List.ne_nil_of_mem hb))).2 b hb

theorem listMinN_le_listMaxN {l : List ℕ} (h : l ≠ []) : listMinN l ≤ listMaxN l :=
  le_listMaxN (listMinN_mem h)

/-- Lengths produced by the extraction loop: each reply line contributes
exactly one latency and one sequence number, and at most one timestamp. -/
theorem extractObs_lengths (hasTs : Bool) (lines : List (List Char)) :
    (extractObs hasTs lines).1.length = (extractObs hasTs lines).2.1.length ∧
      (extractObs hasTs lines).2.2.length ≤ (extractObs hasTs lines).1.length := by
  induction lines with
  | nil => simp [extractObs]
  | cons l ls ih =>
    obtain ⟨ih1, ih2⟩ := ih
    simp only [extractObs]
    split
    · exact ⟨ih1, ih2⟩
    · split
      · split
        · split
          · simp only [List.length_cons]
            omega
          · simp only [List.length_cons]
            omega
        · simp only [List.length_cons]
          omega
      · exact ⟨ih1, ih2⟩

/-- Inversion of a successful `analyze_ping_file` run: every field of the
result is the corresponding computation over the file's lines. -/
theorem analyze_fields {env : Env} {fn : List Char} {lines : List (List Char)} {a : Analysis}
    (h : analyze_ping_file env fn (some lines) = some a) :
    a.times = (extractObs (hasTimestampsIn lines) lines).1 ∧
    a.sequences = (extractObs (hasTimestampsIn lines) lines).2.1 ∧
    a.timestamps = (extractObs (hasTimestampsIn lines) lines).2.2 ∧
    a.missing_sequences = missingSequences a.sequences ∧
    a.intervals = (computeIntervals a.timestamps).1 ∧
    a.abnormal_intervals = (computeIntervals a.timestamps).2 ∧
    a.has_timestamps = hasTimestampsIn lines ∧
    a.times ≠ [] := by
  rw [analyze_ping_file] at h
  simp only [] at h
  split at h
  · exact absurd h (by simp)
  · rename_i hne
    cases h
    refine ⟨rfl, rfl, rfl, rfl, rfl, rfl, rfl, ?_⟩
    simpa using hne

/-- A successful analysis extracted at least one sequence number. -/
theorem analyze_sequences_ne_nil {env : Env} {fn : List Char} {lines : List (List Char)}
    {a : Analysis} (h : analyze_ping_file env fn (some lines) = some a) : a.sequences ≠ [] := by
  obtain ⟨ht, hs, -, -, -, -, -, hne⟩ := analyze_fields h
  have hlen := (extractObs_lengths (hasTimestampsIn lines) lines).1
  rw [← ht, ← hs] at hlen
  intro hnil
  apply hne
  apply List.eq_nil_of_length_eq_zero
  rw [hlen, hnil]
  rfl

theorem missingSequences_sorted (seqs : List ℕ) :
    List.Sorted (· < ·) (missingSequences seqs) := by
  rw [missingSequences]
  split
  · exact List.sorted_nil
  · exact (List.pairwise_lt_range' _ _ 1).filter _

theorem mem_missingSequences {seqs : List ℕ} (h : seqs ≠ []) (n : ℕ) :
    n ∈ missingSequences seqs ↔
      listMinN seqs ≤ n ∧ n ≤ listMaxN seqs ∧ n ∉ seqs := by
  rw [missingSequences]
  rw [if_neg (by simpa using h)]
  rw [List.mem_filter, List.mem_range']
  have hminmax := listMinN_le_listMaxN h
  constructor
  · rintro ⟨⟨i, hi, rfl⟩, hc⟩
    refine ⟨Nat.le_add_right _ _, by omega, ?_⟩
    simpa using hc
  · rintro ⟨h1, h2, h3⟩
    exact ⟨⟨n - listMinN seqs, by omega, by omega⟩, by simpa using h3⟩

/-! ### C1: missing sequence numbers -/

/-- C1: for every parsed log yielding at least one observation, the
missing-sequence output is sorted strictly ascending and contains exactly
the integers of the contiguous range `[min(seq), max(seq)]` that are
absent from the observed sequence list. -/
theorem C1_missing_sequences (env : Env) (fn : List Char) (lines : List (List Char))
    (a : Analysis) (h : analyze_ping_file env fn (some lines) = some a) :
    List.Sorted (· < ·) a.missing_sequences ∧
      ∀ n : ℕ, n ∈ a.missing_sequences ↔
        listMinN a.sequences ≤ n ∧ n ≤ listMaxN a.sequences ∧ n ∉ a.sequences := by
  have hseq := analyze_sequences_ne_nil h
  obtain ⟨-, -, -, hmiss, -, -, -, -⟩ := analyze_fields h
  rw [hmiss]
  exact ⟨missingSequences_sorted _, mem_missingSequences hseq⟩

/-- Environment with an empty ARP table and an empty OUI database. -/
def envNone : Env := ⟨fun _ => none, fun _ => none⟩

/-- A file name containing no MAC address. -/
def fnameT : List Char := "ping_test.txt".toList

/-- A log whose reply lines carry the sequence numbers 1, 2, 4, 5. -/
def logC1 : List (List Char) :=
  [ "PING 8.8.8.8 (8.8.8.8) 56(84) bytes of data.\n".toList
  , "64 bytes from 8.8.8.8: icmp_seq=1 ttl=64 time=1.5 ms\n".toList
  , "64 bytes from 8.8.8.8: icmp_seq=2 ttl=64 time=2.5 ms\n".toList
  , "64 bytes from 8.8.8.8: icmp_seq=4 ttl=64 time=3.5 ms\n".toList
  , "64 bytes from 8.8.8.8: icmp_seq=5 ttl=64 time=1.5 ms\n".toList ]

theorem logC1_isSome : (analyze_ping_file envNone fnameT (some logC1)).isSome = true := by
  decide

/-- Witness for C1: on a log with observed sequences `[1,2,4,5]` the
hypotheses of `C1_missing_sequences` hold and the missing-sequence output
is exactly `[3]`. -/
theorem C1_missing_sequences_witness :
    (∃ a : Analysis, analyze_ping_file envNone fnameT (some logC1) = some a ∧
        a.sequences = [1, 2, 4, 5] ∧ a.missing_sequences = [3] ∧
        (List.Sorted (· < ·) a.missing_sequences ∧
          ∀ n : ℕ, n ∈ a.missing_sequences ↔
            listMinN a.sequences ≤ n ∧ n ≤ listMaxN a.sequences ∧ n ∉ a.sequences)) := by
  refine ⟨(analyze_ping_file envNone fnameT (some logC1)).get logC1_isSome,
    (Option.some_get logC1_isSome).symm, by decide, by decide, ?_⟩
  exact C1_missing_sequences envNone fnameT logC1 _ (Option.some_get logC1_isSome).symm

/-! ### C2: packet-loss percentage -/

/-- C2: for a device whose observed sequence list is nonempty, the PDF
report's packet loss equals `(expected - received) / expected * 100` with
`expected = max(seq) - min(seq) + 1` and `received = len(seq)`, clamped to
`0` exactly when `received > expected` (the clamp is the truncation of the
otherwise-negative formula at zero, so the whole computation is
`max 0 (formula)`). -/
theorem C2_packet_loss (seqs : List ℕ) (h : seqs ≠ []) :
    packet_loss seqs =
      max 0 ((((listMaxN seqs - listMinN seqs + 1 : ℕ) : ℚ) - (seqs.length : ℚ)) /
        ((listMaxN seqs - listMinN seqs + 1 : ℕ) : ℚ) * 100) := by
  rw [packet_loss, if_neg (by simpa using h)]
  have he0 : (0:ℚ) < ((listMaxN seqs - listMinN seqs + 1 : ℕ) : ℚ) := by
    exact_mod_cast Nat.succ_pos _
  dsimp only
  split
  · rename_i hle
    rw [max_eq_right]
    apply mul_nonneg _ (by norm_num)
    apply div_nonneg _ (le_of_lt he0)
    rw [sub_nonneg]
    exact_mod_cast hle
  · rename_i hgt
    rw [max_eq_left]
    have h1 : (((listMaxN seqs - listMinN seqs + 1 : ℕ) : ℚ) - (seqs.length : ℚ)) /
        ((listMaxN seqs - listMinN seqs + 1 : ℕ) : ℚ) ≤ 0 := by
      apply div_nonpos_of_nonpos_of_nonneg _ (le_of_lt he0)
      rw [sub_nonpos]
      exact_mod_cast le_of_lt (lt_of_not_le hgt)
    have h2 := mul_le_mul_of_nonneg_right h1 (by norm_num : (0:ℚ) ≤ 100)
    simpa using h2

/-- Witness for C2: sequences `[1,2,3,4,6,7,8,10]` give 10 expected and 8
received packets, and the packet loss is exactly 20. -/
theorem C2_packet_loss_witness :
    ([1,2,3,4,6,7,8,10] : List ℕ) ≠ [] ∧ packet_loss [1,2,3,4,6,7,8,10] = 20 := by
  refine ⟨by decide, ?_⟩
  have h := C2_packet_loss [1,2,3,4,6,7,8,10] (by decide)
  have e1 : listMaxN [1,2,3,4,6,7,8,10] = 10 := by decide
  have e2 : listMinN [1,2,3,4,6,7,8,10] = 1 := by decide
  rw [h, e1, e2]
  norm_num

/-! ### C7: latency summary statistics -/

/-- C7: the latency summary statistics are the minimum, maximum and
arithmetic mean of the latency list (`minTime` is a member that bounds the
list from below, `maxTime` a member that bounds it from above, and
`avgTime` times the length is the sum), and all three are `0` on the empty
list. -/
theorem C7_latency_stats (ts : List ℚ) :
    (ts = [] → minTime ts = 0 ∧ maxTime ts = 0 ∧ avgTime ts = 0) ∧
    (ts ≠ [] →
      (minTime ts ∈ ts ∧ ∀ b ∈ ts, minTime ts ≤ b) ∧
      (maxTime ts ∈ ts ∧ ∀ b ∈ ts, b ≤ maxTime ts) ∧
      avgTime ts * (ts.length : ℚ) = ts.sum) := by
  constructor
  · intro h
    subst h
    simp [minTime, maxTime, avgTime]
  · intro h
    have hbe : ¬ ts.isEmpty = true := by simpa using h
    refine ⟨?_, ?_, ?_⟩
    · rw [minTime, if_neg hbe]
      cases hm : ts.min? with
      | none => exact absurd (List.min?_eq_none_iff.mp hm) h
      | some a =>
        have := min?_mem_le hm
        simpa [listMinQ, hm] using this
    · rw [maxTime, if_neg hbe]
      cases hm : ts.max? with
      | none => exact absurd (List.max?_eq_none_iff.mp hm) h
      | some a =>
        have := max?_mem_le hm
        simpa [listMaxQ, hm] using this
    · rw [avgTime, if_neg hbe]
      have hl : ((ts.length : ℚ)) ≠ 0 := by
        have : ts.length ≠ 0 := by simpa using List.length_pos.mpr h |>.ne'
        exact_mod_cast this
      field_simp

/-- Witness for C7: on the latencies `[1.0, 2.0, 3.0]` the statistics are
exactly `min = 1`, `max = 3`, `avg = 2`. -/
theorem C7_latency_stats_witness :
    minTime [(1:ℚ),2,3] = 1 ∧ maxTime [(1:ℚ),2,3] = 3 ∧ avgTime [(1:ℚ),2,3] = 2 ∧
      (([(1:ℚ),2,3] : List ℚ) ≠ [] →
        (minTime [(1:ℚ),2,3] ∈ [(1:ℚ),2,3] ∧ ∀ b ∈ [(1:ℚ),2,3], minTime [(1:ℚ),2,3] ≤ b) ∧
        (maxTime [(1:ℚ),2,3] ∈ [(1:ℚ),2,3] ∧ ∀ b ∈ [(1:ℚ),2,3], b ≤ maxTime [(1:ℚ),2,3]) ∧
        avgTime [(1:ℚ),2,3] * (([(1:ℚ),2,3] : List ℚ).length : ℚ) = ([(1:ℚ),2,3] : List ℚ).sum) := by
  refine ⟨?_, ?_, ?_, (C7_latency_stats [(1:ℚ),2,3]).2⟩
  · norm_num [minTime, listMinQ, List.min?, List.foldl, min_def]
  · norm_num [maxTime, listMaxQ, List.max?, List.foldl, max_def]
  · norm_num [avgTime]

/-! ### C9: length invariants of the observation lists -/

/-- C9: every successful analysis satisfies `len(times) = len(sequences)`
and `len(timestamps) ≤ len(times)`: a reply line always contributes one
latency and one sequence number, and at most one timestamp (none when the
timestamp is missing, the file-wide flag is unset, or the value is the
falsy `0.0`). -/
theorem C9_length_invariant (env : Env) (fn : List Char) (lines : List (List Char))
    (a : Analysis) (h : analyze_ping_file env fn (some lines) = some a) :
    a.times.length = a.sequences.length ∧ a.timestamps.length ≤ a.times.length := by
  obtain ⟨ht, hs, hts, -, -, -, -, -⟩ := analyze_fields h
  rw [ht, hs, hts]
  exact extractObs_lengths (hasTimestampsIn lines) lines

/-- A log in which the first reply line's bracketed timestamp has the
falsy value `0.0` and the second a truthy one. -/
def logC9 : List (List Char) :=
  [ "PING 8.8.8.8 (8.8.8.8) 56(84) bytes of data.\n".toList
  , "[0.0] 64 bytes from 8.8.8.8: icmp_seq=1 ttl=64 time=1.5 ms\n".toList
  , "[100.5] 64 bytes from 8.8.8.8: icmp_seq=2 ttl=64 time=1.5 ms\n".toList ]

theorem logC9_isSome : (analyze_ping_file envNone fnameT (some logC9)).isSome = true := by
  decide

/-- Witness for C9: on a log whose first reply line carries the timestamp
`[0.0]`, both observations contribute a sequence and a latency but only
the second contributes a timestamp, and the invariant holds. -/
theorem C9_length_invariant_witness :
    (∃ a : Analysis, analyze_ping_file envNone fnameT (some logC9) = some a ∧
      a.sequences.length = 2 ∧ a.times.length = 2 ∧ a.timestamps.length = 1 ∧
      a.has_timestamps = true ∧
      (a.times.length = a.sequences.length ∧ a.timestamps.length ≤ a.times.length)) := by
  refine ⟨(analyze_ping_file envNone fnameT (some logC9)).get logC9_isSome,
    (Option.some_get logC9_isSome).symm, by decide, by decide, by decide, by decide, ?_⟩
  exact C9_length_invariant envNone fnameT logC9 _ (Option.some_get logC9_isSome).symm

/-! ### C4: zero observations versus unreadable file -/

/-- C4 (amended): a readable file from which zero observations are
extracted makes `analyze_ping_file` return `None` (the function is total,
so no exception escapes). -/
theorem C4_no_data (env : Env) (fn : List Char) (lines : List (List Char))
    (h : (extractObs (hasTimestampsIn lines) lines).1 = []) :
    analyze_ping_file env fn (some lines) = none := by
  rw [analyze_ping_file]
  dsimp only
  rw [if_pos (by simpa using h)]

/-- A readable log with a header but zero reply lines. -/
def logNoData : List (List Char) :=
  [ "PING 8.8.8.8 (8.8.8.8) 56(84) bytes of data.\n".toList ]

/-- Witness for C4 (amended): the header-only log yields zero observations
and the `None` "no data" result. -/
theorem C4_no_data_witness :
    (extractObs (hasTimestampsIn logNoData) logNoData).1 = [] ∧
      analyze_ping_file envNone fnameT (some logNoData) = none :=
  ⟨by decide, C4_no_data envNone fnameT logNoData (by decide)⟩

/-- Counterexample for C4 as stated: the "no data" result is NOT distinct
from the unreadable-file result — `analyze_ping_file` returns the very
same `None` for an unreadable file and for a readable file with zero
observations. -/
theorem C4_no_data_counterexample :
    analyze_ping_file envNone fnameT none = none ∧
    analyze_ping_file envNone fnameT (some logNoData) = none ∧
    analyze_ping_file envNone fnameT none = analyze_ping_file envNone fnameT (some logNoData) :=
  ⟨rfl, by decide, by decide⟩

/-! ### Interval computation: closed form

`intervalsSpec`, `abnormalAt` and `abnormalSpec` restate the loop of
`analyze_ping_file` (lines 231-244) in the spec's vocabulary: consecutive
timestamp differences, and the records flagged when an interval exceeds
twice the sliding median of the last ten intervals once more than five
intervals exist. `computeIntervals_spec` proves the loop equal to this
closed form. -/

/-- The consecutive timestamp differences `timestamps[i] - timestamps[i-1]`. -/
def intervalsSpec (ts : List ℚ) : List ℚ :=
  List.zipWith (fun b a => b - a) ts.tail ts

/-- The abnormal-interval record produced at loop index `i` (if any), as a
function of the full interval list: the `i`-th interval is
`allIvs[i-1]`, the median is over the last ten of the first `i` intervals,
and a record is produced when `i > 5` and the interval exceeds twice the
median. -/
def abnormalAt (allIvs : List ℚ) (i : ℕ) : Option (ℕ × ℕ × ℚ × ℚ) :=
  let iv := allIvs.getD (i - 1) 0
  let med := medianLast10 (allIvs.take i)
  if 5 < i ∧ 2 * med < iv then some (i - 1, i, iv, med) else none

/-- All abnormal-interval records, indexed by the timestamp index
`i = 1, …, len(timestamps) - 1`. -/
def abnormalSpec (ts : List ℚ) : List (ℕ × ℕ × ℚ × ℚ) :=
  (List.range' 1 (ts.length - 1)).filterMap (abnormalAt (intervalsSpec ts))

theorem getD_append_len (l : List ℚ) (x : ℚ) (r : List ℚ) (d : ℚ) :
    (l ++ x :: r).getD l.length d = x := by
  induction l with
  | nil => rfl
  | cons a t ih => simpa using ih

theorem take_append_len_succ (l : List ℚ) (x : ℚ) (r : List ℚ) :
    (l ++ x :: r).take (l.length + 1) = l ++ [x] := by
  induction l with
  | nil => rfl
  | cons a t ih => simpa using ih

theorem intervalsAux_spec (rest : List ℚ) :
    ∀ (prev : ℚ) (ivs : List ℚ) (abn : List (ℕ × ℕ × ℚ × ℚ)),
    intervalsAux (ivs.length + 1) prev ivs abn rest =
      (ivs ++ List.zipWith (fun b a => b - a) rest (prev :: rest),
       abn ++ (List.range' (ivs.length + 1) rest.length).filterMap
         (abnormalAt (ivs ++ List.zipWith (fun b a => b - a) rest (prev :: rest)))) := by
  induction rest with
  | nil =>
    intro prev ivs abn
    simp [intervalsAux]
  | cons t rest ih =>
    intro prev ivs abn
    have hzw : List.zipWith (fun b a => b - a) (t :: rest) (prev :: t :: rest) =
        (t - prev) :: List.zipWith (fun b a => b - a) rest (t :: rest) := by
      simp
    have hA : ivs ++ List.zipWith (fun b a => b - a) (t :: rest) (prev :: t :: rest) =
        (ivs ++ [t - prev]) ++ List.zipWith (fun b a => b - a) rest (t :: rest) := by
      rw [hzw, List.append_assoc]
      rfl
    have habAt : abnormalAt
        (ivs ++ List.zipWith (fun b a => b - a) (t :: rest) (prev :: t :: rest))
        (ivs.length + 1) =
        (if 5 < ivs.length + 1 ∧ 2 * medianLast10 (ivs ++ [t - prev]) < t - prev
         then some (ivs.length, ivs.length + 1, t - prev, medianLast10 (ivs ++ [t - prev]))
         else none) := by
      rw [abnormalAt, hzw]
      have hgd : (ivs ++ (t - prev) :: List.zipWith (fun b a => b - a) rest (t :: rest)).getD
          (ivs.length + 1 - 1) 0 = t - prev := by
        rw [Nat.add_sub_cancel, getD_append_len]
      have htk : (ivs ++ (t - prev) :: List.zipWith (fun b a => b - a) rest (t :: rest)).take
          (ivs.length + 1) = ivs ++ [t - prev] := take_append_len_succ _ _ _
      rw [hgd, htk]
      simp
    simp only [intervalsAux]
    rw [show ivs.length + 1 + 1 = (ivs ++ [t - prev]).length + 1 from by simp]
    rw [ih t (ivs ++ [t - prev])]
    rw [List.length_cons, List.range'_succ, List.filterMap_cons, habAt, hA]
    have hlen2 : (ivs ++ [t - prev]).length = ivs.length + 1 := by simp
    rw [hlen2]
    simp only [Nat.add_sub_cancel]
    by_cases hc : 5 < ivs.length + 1 ∧ 2 * medianLast10 (ivs ++ [t - prev]) < t - prev
    · rw [if_pos hc, if_pos hc]
      simp
    · rw [if_neg hc, if_neg hc]

/-- The interval loop of `analyze_ping_file` computes exactly the
consecutive differences and the records of `abnormalSpec`. -/
theorem computeIntervals_spec (ts : List ℚ) :
    computeIntervals ts = (intervalsSpec ts, abnormalSpec ts) := by
  match ts with
  | [] => rfl
  | [t] => rfl
  | t0 :: t1 :: rest =>
    have h := intervalsAux_spec (t1 :: rest) t0 [] []
    simp only [List.length_nil, List.nil_append, Nat.zero_add] at h
    rw [computeIntervals, h, intervalsSpec, abnormalSpec]
    simp [intervalsSpec]

/-- Membership in the abnormal-interval list, in closed form. -/
theorem mem_abnormalSpec {ts : List ℚ} {r : ℕ × ℕ × ℚ × ℚ} :
    r ∈ abnormalSpec ts ↔
      ∃ i, 5 < i ∧ i < ts.length ∧
        2 * medianLast10 ((intervalsSpec ts).take i) < (intervalsSpec ts).getD (i - 1) 0 ∧
        r = (i - 1, i, (intervalsSpec ts).getD (i - 1) 0,
          medianLast10 ((intervalsSpec ts).take i)) := by
  rw [abnormalSpec, List.mem_filterMap]
  constructor
  · rintro ⟨i, hi, habn⟩
    rw [List.mem_range'] at hi
    obtain ⟨j, hj, rfl⟩ := hi
    rw [abnormalAt] at habn
    split at habn
    · rename_i hcond
      cases habn
      exact ⟨1 + 1 * j, hcond.1, by omega, hcond.2, rfl⟩
    · exact absurd habn (by simp)
  · rintro ⟨i, h5, hlt, hcond, rfl⟩
    refine ⟨i, ?_, ?_⟩
    · rw [List.mem_range']
      exact ⟨i - 1, by omega, by omega⟩
    · rw [abnormalAt]
      rw [if_pos ⟨h5, hcond⟩]

/-! ### C5 and C10: abnormal-interval detection -/

/-- C5: when timestamps are available and at least two observations exist,
the analyzer's `intervals` are the consecutive timestamp differences, and
an interval is flagged abnormal exactly when it exceeds twice the sliding
median of the last ten intervals, once more than five intervals have
accumulated. -/
theorem C5_abnormal_intervals (env : Env) (fn : List Char) (lines : List (List Char))
    (a : Analysis) (h : analyze_ping_file env fn (some lines) = some a)
    (_hts : a.has_timestamps = true) (_h2 : 2 ≤ a.times.length) :
    a.intervals = intervalsSpec a.timestamps ∧
    ∀ r, r ∈ a.abnormal_intervals ↔
      ∃ i, 5 < i ∧ i < a.timestamps.length ∧
        2 * medianLast10 ((intervalsSpec a.timestamps).take i) <
          (intervalsSpec a.timestamps).getD (i - 1) 0 ∧
        r = (i - 1, i, (intervalsSpec a.timestamps).getD (i - 1) 0,
          medianLast10 ((intervalsSpec a.timestamps).take i)) := by
  obtain ⟨-, -, -, -, hiv, hab, -, -⟩ := analyze_fields h
  rw [hiv, hab, computeIntervals_spec]
  exact ⟨rfl, fun r => mem_abnormalSpec⟩

/-- A timestamped log with unit intervals followed by a 13-second gap. -/
def logTs : List (List Char) :=
  [ "PING 8.8.8.8 (8.8.8.8) 56(84) bytes of data.\n".toList
  , "[1.0] 64 bytes from 8.8.8.8: icmp_seq=1 ttl=64 time=1.5 ms\n".toList
  , "[2.0] 64 bytes from 8.8.8.8: icmp_seq=2 ttl=64 time=1.5 ms\n".toList
  , "[3.0] 64 bytes from 8.8.8.8: icmp_seq=3 ttl=64 time=1.5 ms\n".toList
  , "[4.0] 64 bytes from 8.8.8.8: icmp_seq=4 ttl=64 time=1.5 ms\n".toList
  , "[5.0] 64 bytes from 8.8.8.8: icmp_seq=5 ttl=64 time=1.5 ms\n".toList
  , "[6.0] 64 bytes from 8.8.8.8: icmp_seq=6 ttl=64 time=1.5 ms\n".toList
  , "[7.0] 64 bytes from 8.8.8.8: icmp_seq=7 ttl=64 time=1.5 ms\n".toList
  , "[20.0] 64 bytes from 8.8.8.8: icmp_seq=8 ttl=64 time=1.5 ms\n".toList ]

theorem logTs_isSome : (analyze_ping_file envNone fnameT (some logTs)).isSome = true := by
  decide

/-- The analysis of `logTs`. -/
def aTs : Analysis := (analyze_ping_file envNone fnameT (some logTs)).get logTs_isSome

theorem aTs_eq : analyze_ping_file envNone fnameT (some logTs) = some aTs :=
  (Option.some_get logTs_isSome).symm

theorem aTs_timestamps : aTs.timestamps = [1, 2, 3, 4, 5, 6, 7, 20] := by
  have h : aTs.timestamps =
      [tsToRat (['1'], ['0']), tsToRat (['2'], ['0']), tsToRat (['3'], ['0']),
       tsToRat (['4'], ['0']), tsToRat (['5'], ['0']), tsToRat (['6'], ['0']),
       tsToRat (['7'], ['0']), tsToRat (['2', '0'], ['0'])] := by rfl
  rw [h]
  have e1 : digitsToNat ['1'] = 1 := by decide
  have e2 : digitsToNat ['2'] = 2 := by decide
  have e3 : digitsToNat ['3'] = 3 := by decide
  have e4 : digitsToNat ['4'] = 4 := by decide
  have e5 : digitsToNat ['5'] = 5 := by decide
  have e6 : digitsToNat ['6'] = 6 := by decide
  have e7 : digitsToNat ['7'] = 7 := by decide
  have e20 : digitsToNat ['2', '0'] = 20 := by decide
  have e0 : digitsToNat ['0'] = 0 := by decide
  norm_num [tsToRat, e1, e2, e3, e4, e5, e6, e7, e20, e0]

theorem aTs_abnormal : aTs.abnormal_intervals = [(6, 7, 13, 1)] := by
  obtain ⟨-, -, -, -, -, hab, -, -⟩ := analyze_fields aTs_eq
  rw [hab, aTs_timestamps]
  norm_num [computeIntervals, intervalsAux, medianLast10, List.insertionSort,
    List.orderedInsert]

/-- Witness for C5: on `logTs` the hypotheses of `C5_abnormal_intervals`
hold (timestamps available, more than two observations), and the
characterization applies; the flagged record is the one at indices
`(6, 7)` with interval `13` and median `1`. -/
theorem C5_abnormal_intervals_witness :
    analyze_ping_file envNone fnameT (some logTs) = some aTs ∧
    aTs.abnormal_intervals = [(6, 7, 13, 1)] ∧
    (aTs.intervals = intervalsSpec aTs.timestamps ∧
      ∀ r, r ∈ aTs.abnormal_intervals ↔
        ∃ i, 5 < i ∧ i < aTs.timestamps.length ∧
          2 * medianLast10 ((intervalsSpec aTs.timestamps).take i) <
            (intervalsSpec aTs.timestamps).getD (i - 1) 0 ∧
          r = (i - 1, i, (intervalsSpec aTs.timestamps).getD (i - 1) 0,
            medianLast10 ((intervalsSpec aTs.timestamps).take i))) :=
  ⟨aTs_eq, aTs_abnormal,
    C5_abnormal_intervals envNone fnameT logTs aTs aTs_eq (by decide) (by decide)⟩

/-- C10: no analysis ever flags one of the first five intervals: every
abnormal-interval record `(i-1, i, interval, median)` has `i ≥ 6` (the
flagged interval is the sixth or later) and first component at least 5. -/
theorem C10_abnormal_after_five (env : Env) (fn : List Char) (lines : List (List Char))
    (a : Analysis) (h : analyze_ping_file env fn (some lines) = some a) :
    ∀ r ∈ a.abnormal_intervals, 5 ≤ r.1 ∧ 6 ≤ r.2.1 := by
  obtain ⟨-, -, -, -, -, hab, -, -⟩ := analyze_fields h
  rw [hab, computeIntervals_spec]
  intro r hr
  rw [mem_abnormalSpec] at hr
  obtain ⟨i, h5, -, -, rfl⟩ := hr
  exact ⟨show 5 ≤ i - 1 by omega, show 6 ≤ i by omega⟩

/-- Witness for C10: `logTs` produces a nonempty abnormal-interval list,
and its sole record `(6, 7, 13, 1)` indeed describes the seventh interval,
so the bound of `C10_abnormal_after_five` applies nontrivially. -/
theorem C10_abnormal_after_five_witness :
    analyze_ping_file envNone fnameT (some logTs) = some aTs ∧
    aTs.abnormal_intervals ≠ [] ∧
    ∀ r ∈ aTs.abnormal_intervals, 5 ≤ r.1 ∧ 6 ≤ r.2.1 :=
  ⟨aTs_eq, by rw [aTs_abnormal]; simp,
    C10_abnormal_after_five envNone fnameT logTs aTs aTs_eq⟩

/-! ### C3: the file-wide timestamp flag on mixed files -/

/-- A mixed log: the first and third reply lines carry bracketed
timestamps, the second does not. -/
def logMixed : List (List Char) :=
  [ "PING 8.8.8.8 (8.8.8.8) 56(84) bytes of data.\n".toList
  , "[100.0] 64 bytes from 8.8.8.8: icmp_seq=1 ttl=64 time=1.5 ms\n".toList
  , "64 bytes from 8.8.8.8: icmp_seq=2 ttl=64 time=1.5 ms\n".toList
  , "[102.0] 64 bytes from 8.8.8.8: icmp_seq=3 ttl=64 time=1.5 ms\n".toList ]

theorem logMixed_isSome : (analyze_ping_file envNone fnameT (some logMixed)).isSome = true := by
  decide

/-- Counterexample for C3 as stated: `logMixed` is a mixed file (not every
non-blank line carries a bracketed timestamp), it produces observations,
and yet the analysis sets `has_timestamps` and computes a nonempty
interval list from the partial timestamps instead of reporting the metrics
unavailable. -/
theorem C3_timestamp_flag_counterexample :
    logMixed.all (fun l => isBlankL l || (tsCapture l).isSome) = false ∧
    ∃ a : Analysis, analyze_ping_file envNone fnameT (some logMixed) = some a ∧
      a.has_timestamps = true ∧ a.intervals ≠ [] ∧
      a.sequences.length = 3 ∧ a.timestamps.length = 2 :=
  ⟨by decide,
    (analyze_ping_file envNone fnameT (some logMixed)).get logMixed_isSome,
    (Option.some_get logMixed_isSome).symm, by decide, by decide, by decide, by decide⟩

/-- C3 (amended): timestamp availability is a file-wide boolean, but the
policy is liberal rather than conservative: the flag is set exactly when
at least one non-blank line carries a leading bracketed timestamp, and on
mixed files the interval metrics are computed from the partially collected
timestamp list (the consecutive differences of the timestamps that were
present), not reported unavailable. -/
theorem C3_timestamp_flag (env : Env) (fn : List Char) (lines : List (List Char))
    (a : Analysis) (h : analyze_ping_file env fn (some lines) = some a) :
    (a.has_timestamps = true ↔
      ∃ l ∈ lines, ¬ isBlankL l = true ∧ (tsCapture l).isSome = true) ∧
    a.intervals = intervalsSpec a.timestamps := by
  obtain ⟨-, -, -, -, hiv, -, hts, -⟩ := analyze_fields h
  constructor
  · rw [hts, hasTimestampsIn, List.any_eq_true]
    constructor
    · rintro ⟨l, hl, hpred⟩
      rw [Bool.and_eq_true, Bool.not_eq_true'] at hpred
      exact ⟨l, hl, by simp [hpred.1], hpred.2⟩
    · rintro ⟨l, hl, hbl, hcap⟩
      refine ⟨l, hl, ?_⟩
      rw [Bool.and_eq_true, Bool.not_eq_true']
      exact ⟨by simpa using hbl, hcap⟩
  · rw [hiv, computeIntervals_spec]

/-- Witness for C3 (amended): applied to the mixed log, whose flag is set
by its two timestamped lines. -/
theorem C3_timestamp_flag_witness :
    analyze_ping_file envNone fnameT (some logMixed) =
      some ((analyze_ping_file envNone fnameT (some logMixed)).get logMixed_isSome) ∧
    (((analyze_ping_file envNone fnameT (some logMixed)).get logMixed_isSome).has_timestamps = true ↔
      ∃ l ∈ logMixed, ¬ isBlankL l = true ∧ (tsCapture l).isSome = true) ∧
    ((analyze_ping_file envNone fnameT (some logMixed)).get logMixed_isSome).intervals =
      intervalsSpec ((analyze_ping_file envNone fnameT (some logMixed)).get logMixed_isSome).timestamps :=
  ⟨(Option.some_get logMixed_isSome).symm,
    (C3_timestamp_flag envNone fnameT logMixed _ (Option.some_get logMixed_isSome).symm).1,
    (C3_timestamp_flag envNone fnameT logMixed _ (Option.some_get logMixed_isSome).symm).2⟩

/-! ### C8: purity and determinism -/

/-- The fields of an analysis that are computed from the file text alone:
everything except `mac_address` and `manufacturer` (which depend on the
filename, the ARP table and the OUI database). -/
def coreOf (a : Analysis) :
    List Char × Option (List Char) × List ℚ × List ℕ × List ℚ × List ℕ × List ℚ ×
      List (ℕ × ℕ × ℚ × ℚ) × Bool :=
  (a.ip, a.domain, a.times, a.sequences, a.timestamps, a.missing_sequences, a.intervals,
    a.abnormal_intervals, a.has_timestamps)

/-- C8 (amended): once file I/O, the ARP subprocess and the OUI database
are all factored out as explicit inputs, the parsing and statistics fields
of the analysis are a deterministic function of the file's text alone:
they do not depend on the environment or on the filename. (The full result
is not: `mac_address` and `manufacturer` read the environment, see the
counterexample.) -/
theorem C8_core_deterministic (env1 env2 : Env) (fn1 fn2 : List Char)
    (lines : List (List Char)) :
    (analyze_ping_file env1 fn1 (some lines)).map coreOf =
      (analyze_ping_file env2 fn2 (some lines)).map coreOf := by
  rw [analyze_ping_file, analyze_ping_file]
  dsimp only
  by_cases hc : (extractObs (hasTimestampsIn lines) lines).1.isEmpty = true
  · rw [if_pos hc, if_pos hc]
  · rw [if_neg hc, if_neg hc]
    rfl

/-- A log whose target is a private IPv4 address, triggering the ARP
fallback of `analyze_ping_file`. -/
def logPriv : List (List Char) :=
  [ "PING 192.168.1.5 (192.168.1.5) 56(84) bytes of data.\n".toList
  , "64 bytes from 192.168.1.5: icmp_seq=1 ttl=64 time=1.5 ms\n".toList ]

/-- An environment whose ARP table resolves every query to a fixed MAC. -/
def envArp : Env := ⟨fun _ => some ("aa:bb:cc:dd:ee:ff".toList), fun _ => none⟩

/-- Counterexample for C8 as stated: two analyses of the very same file
text produce different results under different external environments (an
ARP table with and without an entry for the private target), so the
analysis of a log is not a pure function of the file's text: it reads the
ARP table (a subprocess call) and the OUI database (a network download)
through `mac_address` and `manufacturer`. -/
theorem C8_counterexample :
    analyze_ping_file envArp fnameT (some logPriv) ≠
      analyze_ping_file envNone fnameT (some logPriv) ∧
    (analyze_ping_file envArp fnameT (some logPriv)).map (·.mac_address) =
      some (some ("aa:bb:cc:dd:ee:ff".toList)) ∧
    (analyze_ping_file envNone fnameT (some logPriv)).map (·.mac_address) = some none :=
  ⟨by decide, by decide, by decide⟩

/-! ### Decimal formatting (for the synthetic-log generator)

`create_test_files.py` writes numbers with Python's `str(int)`,
`f"{x:.3f}"` and `f"{x:.1f}"`. `natDigits` is the decimal numeral of a
natural number; `fmt3`/`fmt1` render a nonnegative value with exactly
three/one fraction digits after nearest-integer rounding of the scaled
value (Mathlib's `round`, which rounds halves up; Python rounds the
underlying binary float with halves to even — both stay within the
half-ulp tolerance that the round-trip property asserts). -/

/-- The decimal digit character for `d % 10`-style values. -/
def digitChar : ℕ → Char
  | 0 => '0'
  | 1 => '1'
  | 2 => '2'
  | 3 => '3'
  | 4 => '4'
  | 5 => '5'
  | 6 => '6'
  | 7 => '7'
  | 8 => '8'
  | _ => '9'

/-- Decimal numeral of a natural number, as `str(n)` produces it. -/
def natDigits (n : ℕ) : List Char :=
  if n < 10 then [digitChar n]
  else natDigits (n / 10) ++ [digitChar (n % 10)]
decreasing_by exact Nat.div_lt_self (by omega) (by norm_num)

/-- Three zero-padded decimal digits of `m < 1000`. -/
def pad3 (m : ℕ) : List Char :=
  [digitChar (m / 100), digitChar (m / 10 % 10), digitChar (m % 10)]

/-- Rendering of `f"{x:.3f}"` for a nonnegative rational. -/
def fmt3 (q : ℚ) : List Char :=
  let n := (round (q * 1000)).toNat
  natDigits (n / 1000) ++ '.' :: pad3 (n % 1000)

/-- Rendering of `f"{x:.1f}"` for a nonnegative rational. -/
def fmt1 (q : ℚ) : List Char :=
  let n := (round (q * 10)).toNat
  natDigits (n / 10) ++ ['.', digitChar (n % 10)]

theorem digitChar_isDigit (d : ℕ) : (digitChar d).isDigit = true :=
  match d with
  | 0 => rfl
  | 1 => rfl
  | 2 => rfl
  | 3 => rfl
  | 4 => rfl
  | 5 => rfl
  | 6 => rfl
  | 7 => rfl
  | 8 => rfl
  | _ + 9 => rfl

theorem digitChar_toNat (d : ℕ) (h : d < 10) : (digitChar d).toNat - 48 = d := by
  interval_cases d <;> decide

theorem digitsToNat_append_single (ds : List Char) (c : Char) :
    digitsToNat (ds ++ [c]) = 10 * digitsToNat ds + (c.toNat - 48) := by
  rw [digitsToNat, digitsToNat, List.foldl_append]
  rfl

theorem natDigits_all_digit (n : ℕ) : ∀ c ∈ natDigits n, c.isDigit = true := by
  induction n using Nat.strong_induction_on with
  | _ n ih =>
    rw [natDigits]
    split
    · intro c hc
      rw [List.mem_singleton] at hc
      subst hc
      exact digitChar_isDigit _
    · rename_i h
      intro c hc
      rw [List.mem_append] at hc
      rcases hc with hc | hc
      · exact ih (n / 10) (Nat.div_lt_self (by omega) (by norm_num)) c hc
      · rw [List.mem_singleton] at hc
        subst hc
        exact digitChar_isDigit _

theorem natDigits_ne_nil (n : ℕ) : natDigits n ≠ [] := by
  rw [natDigits]
  split
  · simp
  · simp

theorem digitsToNat_natDigits (n : ℕ) : digitsToNat (natDigits n) = n := by
  induction n using Nat.strong_induction_on with
  | _ n ih =>
    rw [natDigits]
    split
    · rename_i h
      show digitsToNat [digitChar n] = n
      have hd := digitChar_toNat n h
      rw [digitsToNat]
      simp only [List.foldl_cons, List.foldl_nil]
      omega
    · rename_i h
      rw [digitsToNat_append_single,
        ih (n / 10) (Nat.div_lt_self (by omega) (by norm_num)),
        digitChar_toNat _ (Nat.mod_lt _ (by norm_num))]
      omega

theorem pad3_all_digit (m : ℕ) : ∀ c ∈ pad3 m, c.isDigit = true := by
  intro c hc
  simp only [pad3, List.mem_cons, List.not_mem_nil, or_false] at hc
  rcases hc with rfl | rfl | rfl <;> exact digitChar_isDigit _

theorem digitsToNat_pad3 (m : ℕ) (h : m < 1000) : digitsToNat (pad3 m) = m := by
  rw [pad3, digitsToNat]
  simp only [List.foldl_cons, List.foldl_nil]
  rw [digitChar_toNat _ (by omega), digitChar_toNat _ (by omega), digitChar_toNat _ (by omega)]
  omega

theorem pad3_length (m : ℕ) : (pad3 m).length = 3 := rfl

/-! ### Embedding of `create_ping_file` (`create_test_files.py`)

The generator's random draws are taken as parameters: `pings` is the list
of realized successful pings, each with its formatted timestamp string
(`strftime("%Y-%m-%d %H:%M:%S.%f")[:-3]`), its sequence number and its
latency; `total` is the number of attempts (`seq - 1` at loop end, i.e.
lost pings included); `hours` the duration parameter. The writes are
reproduced literally, line by line, as `readlines` would return them. -/

/-- The header `PING {target_name} ({target_ip}) 56(84) bytes of data.`. -/
def mkHeader (name ip : List Char) : List Char :=
  ("PING ").toList ++ name ++ (" (").toList ++ ip ++ (") 56(84) bytes of data.\n").toList

/-- The literal between the timestamp bracket and the target IP. -/
def replyMid1 : List Char := "] 64 bytes from ".toList

/-- The literal between the sequence digits and `time=`. -/
def replyMid3 : List Char := " ttl=64 ".toList

/-- The literal ending a reply line. -/
def replyEnd : List Char := " ms\n".toList

/-- One generated reply line
`[{time_str}] 64 bytes from {ip}: icmp_seq={seq} ttl=64 time={t:.3f} ms`. -/
def mkReplyLine (tsStr ip : List Char) (seq : ℕ) (q : ℚ) : List Char :=
  '[' :: (tsStr ++ (replyMid1 ++ (ip ++ ((": ").toList ++ (icmpPat ++ (natDigits seq ++
    (replyMid3 ++ (timePat ++ (fmt3 q ++ replyEnd)))))))))

/-- The `--- {target_name} ping statistics ---` line. -/
def statsHeaderLine (name : List Char) : List Char :=
  ("--- ").toList ++ name ++ (" ping statistics ---\n").toList

/-- The `{n} packets transmitted, {m} received, {loss:.1f}% packet loss,
time {ms}ms` line. -/
def countsLine (total received : ℕ) (loss : ℚ) (hours : ℕ) : List Char :=
  natDigits total ++ (" packets transmitted, ").toList ++ natDigits received ++
    (" received, ").toList ++ fmt1 loss ++ ("% packet loss, time ").toList ++
    natDigits (hours * 3600) ++ ("ms\n").toList

/-- The `rtt min/avg/max/mdev = a/b/c/d ms` line. -/
def rttLine (a b c d : ℚ) : List Char :=
  ("rtt min/avg/max/mdev = ").toList ++ fmt3 a ++ '/' :: (fmt3 b ++ '/' :: (fmt3 c ++
    '/' :: (fmt3 d ++ (" ms\n").toList)))

/-- Embedding of the file written by `create_ping_file`: the header, one
reply line per successful ping, and (when any ping succeeded) the summary
block — a blank line, the statistics header, the counts line with the
packet-loss percentage `(total - received) / total * 100`, and the rtt
line with min/avg/max and `mdev = (max - min) / 4` over the realized
latencies. -/
def create_ping_file (name ip : List Char) (total hours : ℕ)
    (pings : List (List Char × ℕ × ℚ)) : List (List Char) :=
  mkHeader name ip ::
    (pings.map (fun p => mkReplyLine p.1 ip p.2.1 p.2.2) ++
      (if pings.isEmpty then []
       else
        let qs := pings.map (fun p => p.2.2)
        [ ("\n").toList
        , statsHeaderLine name
        , countsLine total qs.length
            (((total : ℚ) - (qs.length : ℚ)) / (total : ℚ) * 100) hours
        , rttLine (listMinQ qs) (qs.sum / (qs.length : ℚ)) (listMaxQ qs)
            ((listMaxQ qs - listMinQ qs) / 4) ]))

/-! ### Facts about the regex scanners on composite lines -/

/-- A list that does not begin with a digit (or is empty). -/
def headNotDigit : List Char → Prop
  | [] => True
  | c :: _ => c.isDigit = false

theorem takeDigits_append {ds : List Char} (rest : List Char)
    (h : ∀ c ∈ ds, c.isDigit = true) (hrest : headNotDigit rest) :
    takeDigits (ds ++ rest) = ds := by
  induction ds with
  | nil =>
    cases rest with
    | nil => rfl
    | cons c r =>
      rw [List.nil_append, takeDigits, if_neg]
      rw [headNotDigit] at hrest
      simp [hrest]
  | cons d ds ih =>
    rw [List.cons_append, takeDigits, if_pos (h d (by simp))]
    rw [ih (fun c hc => h c (by simp [hc]))]

theorem takeDigits_of_all {ds : List Char} (h : ∀ c ∈ ds, c.isDigit = true) :
    takeDigits ds = ds := by
  have h2 : takeDigits (ds ++ []) = ds := takeDigits_append [] h trivial
  simpa using h2

theorem mem_of_isPrefixOf {pat s : List Char} {c : Char}
    (h : pat.isPrefixOf s = true) (hc : c ∈ pat) : c ∈ s := by
  induction pat generalizing s with
  | nil => cases hc
  | cons p pr ih =>
    cases s with
    | nil => cases h
    | cons b bs =>
      rw [List.isPrefixOf, Bool.and_eq_true, beq_iff_eq] at h
      rcases List.mem_cons.mp hc with rfl | hc
      · exact List.mem_cons.mpr (Or.inl h.1)
      · exact List.mem_cons.mpr (Or.inr (ih h.2 hc))

theorem searchNum_none_eq {pat s : List Char} (hpat : '=' ∈ pat) (hs : '=' ∉ s) :
    searchNumAfter pat s = none := by
  induction s with
  | nil => rfl
  | cons c cs ih =>
    rw [searchNumAfter]
    cases hp : pat.isPrefixOf (c :: cs) with
    | false =>
      rw [if_neg (by simp)]
      exact ih (fun hm => hs (List.mem_cons.mpr (Or.inr hm)))
    | true => exact absurd (mem_of_isPrefixOf hp hpat) hs

theorem searchDec_none_eq {pat s : List Char} (hpat : '=' ∈ pat) (hs : '=' ∉ s) :
    searchDecAfter pat s = none := by
  induction s with
  | nil => rfl
  | cons c cs ih =>
    rw [searchDecAfter]
    cases hp : pat.isPrefixOf (c :: cs) with
    | false =>
      rw [if_neg (by simp)]
      exact ih (fun hm => hs (List.mem_cons.mpr (Or.inr hm)))
    | true => exact absurd (mem_of_isPrefixOf hp hpat) hs

theorem searchNum_skip {p0 : Char} {pr : List Char} (A rest : List Char)
    (h : ∀ c ∈ A, ¬ c = p0) :
    searchNumAfter (p0 :: pr) (A ++ rest) = searchNumAfter (p0 :: pr) rest := by
  induction A with
  | nil => rfl
  | cons c A ih =>
    rw [List.cons_append, searchNumAfter]
    have hcp : ¬ p0 = c := fun he => h c (by simp) he.symm
    have hp : (p0 :: pr).isPrefixOf (c :: (A ++ rest)) = false := by
      rw [List.isPrefixOf, Bool.and_eq_false_iff]
      left
      rw [beq_eq_false_iff_ne]
      exact hcp
    rw [hp, Bool.false_and, if_neg (by simp)]
    exact ih (fun c hc => h c (by simp [hc]))

theorem searchDec_skip {p0 : Char} {pr : List Char} (A rest : List Char)
    (h : ∀ c ∈ A, ¬ c = p0) :
    searchDecAfter (p0 :: pr) (A ++ rest) = searchDecAfter (p0 :: pr) rest := by
  induction A with
  | nil => rfl
  | cons c A ih =>
    rw [List.cons_append, searchDecAfter]
    have hcp : ¬ p0 = c := fun he => h c (by simp) he.symm
    have hp : (p0 :: pr).isPrefixOf (c :: (A ++ rest)) = false := by
      rw [List.isPrefixOf, Bool.and_eq_false_iff]
      left
      rw [beq_eq_false_iff_ne]
      exact hcp
    rw [hp, Bool.false_and, if_neg (by simp)]
    exact ih (fun c hc => h c (by simp [hc]))

theorem searchNum_step2 {p0 p1 : Char} {pr : List Char} {c1 : Char} (rest : List Char)
    (h : ¬ c1 = p1) :
    searchNumAfter (p0 :: p1 :: pr) (p0 :: c1 :: rest) =
      searchNumAfter (p0 :: p1 :: pr) (c1 :: rest) := by
  rw [searchNumAfter]
  have hcp : ¬ p1 = c1 := fun he => h he.symm
  have hp : (p0 :: p1 :: pr).isPrefixOf (p0 :: c1 :: rest) = false := by
    rw [List.isPrefixOf, List.isPrefixOf, Bool.and_eq_false_iff]
    right
    rw [Bool.and_eq_false_iff]
    left
    rw [beq_eq_false_iff_ne]
    exact hcp
  rw [hp, Bool.false_and, if_neg (by simp)]

theorem searchDec_step2 {p0 p1 : Char} {pr : List Char} {c1 : Char} (rest : List Char)
    (h : ¬ c1 = p1) :
    searchDecAfter (p0 :: p1 :: pr) (p0 :: c1 :: rest) =
      searchDecAfter (p0 :: p1 :: pr) (c1 :: rest) := by
  rw [searchDecAfter]
  have hcp : ¬ p1 = c1 := fun he => h he.symm
  have hp : (p0 :: p1 :: pr).isPrefixOf (p0 :: c1 :: rest) = false := by
    rw [List.isPrefixOf, List.isPrefixOf, Bool.and_eq_false_iff]
    right
    rw [Bool.and_eq_false_iff]
    left
    rw [beq_eq_false_iff_ne]
    exact hcp
  rw [hp, Bool.false_and, if_neg (by simp)]

theorem isPrefixOf_append_self (l t : List Char) : l.isPrefixOf (l ++ t) = true := by
  induction l with
  | nil => cases t <;> rfl
  | cons c l ih => simp [List.isPrefixOf, ih]

theorem searchNum_found (p0 : Char) (pr D rest : List Char)
    (hD : ∀ c ∈ D, c.isDigit = true) (hne : D ≠ []) (hrest : headNotDigit rest) :
    searchNumAfter (p0 :: pr) ((p0 :: pr) ++ (D ++ rest)) = some D := by
  rw [show (p0 :: pr) ++ (D ++ rest) = p0 :: (pr ++ (D ++ rest)) from rfl, searchNumAfter]
  have hp : (p0 :: pr).isPrefixOf (p0 :: (pr ++ (D ++ rest))) = true := by
    rw [show p0 :: (pr ++ (D ++ rest)) = (p0 :: pr) ++ (D ++ rest) from rfl]
    exact isPrefixOf_append_self _ _
  have hdrop : (p0 :: (pr ++ (D ++ rest))).drop (p0 :: pr).length = D ++ rest := by
    rw [show p0 :: (pr ++ (D ++ rest)) = (p0 :: pr) ++ (D ++ rest) from rfl]
    exact List.drop_left _ _
  rw [hp, hdrop, takeDigits_append rest hD hrest, Bool.true_and,
    if_pos (by simpa using hne)]

theorem searchDec_found (p0 : Char) (pr D rest : List Char)
    (hD : ∀ c ∈ D, c.isDigit = true) (hne : D ≠ []) (hrest : headNotDigit rest) :
    searchDecAfter (p0 :: pr) ((p0 :: pr) ++ (D ++ rest)) = some (takeDecimal (D ++ rest)) := by
  rw [show (p0 :: pr) ++ (D ++ rest) = p0 :: (pr ++ (D ++ rest)) from rfl, searchDecAfter]
  have hp : (p0 :: pr).isPrefixOf (p0 :: (pr ++ (D ++ rest))) = true := by
    rw [show p0 :: (pr ++ (D ++ rest)) = (p0 :: pr) ++ (D ++ rest) from rfl]
    exact isPrefixOf_append_self _ _
  have hdrop : (p0 :: (pr ++ (D ++ rest))).drop (p0 :: pr).length = D ++ rest := by
    rw [show p0 :: (pr ++ (D ++ rest)) = (p0 :: pr) ++ (D ++ rest) from rfl]
    exact List.drop_left _ _
  rw [hp, hdrop, takeDigits_append rest hD hrest, Bool.true_and,
    if_pos (by simpa using hne)]

theorem takeDecimal_split (ds fs rest : List Char)
    (hds : ∀ c ∈ ds, c.isDigit = true) (hfs : ∀ c ∈ fs, c.isDigit = true)
    (hrest : headNotDigit rest) :
    takeDecimal (ds ++ '.' :: (fs ++ rest)) = ds ++ '.' :: fs := by
  rw [takeDecimal]
  have h1 : takeDigits (ds ++ '.' :: (fs ++ rest)) = ds := by
    exact takeDigits_append ('.' :: (fs ++ rest)) hds (by rw [headNotDigit]; decide)
  rw [h1]
  have h2 : (ds ++ '.' :: (fs ++ rest)).drop ds.length = '.' :: (fs ++ rest) :=
    List.drop_left _ _
  rw [h2]
  show ds ++ '.' :: takeDigits (fs ++ rest) = ds ++ '.' :: fs
  rw [takeDigits_append rest hfs hrest]

theorem decToRat_split (ds fs : List Char)
    (hds : ∀ c ∈ ds, c.isDigit = true) (hfs : ∀ c ∈ fs, c.isDigit = true) :
    decToRat (ds ++ '.' :: fs) =
      (digitsToNat ds : ℚ) + (digitsToNat fs : ℚ) / 10 ^ fs.length := by
  rw [decToRat]
  have h1 : takeDigits (ds ++ '.' :: fs) = ds :=
    takeDigits_append ('.' :: fs) hds (by rw [headNotDigit]; decide)
  rw [h1]
  have h2 : (ds ++ '.' :: fs).drop ds.length = '.' :: fs := List.drop_left _ _
  rw [h2]
  show (digitsToNat ds : ℚ) + (digitsToNat (takeDigits fs) : ℚ) / 10 ^ (takeDigits fs).length =
    (digitsToNat ds : ℚ) + (digitsToNat fs : ℚ) / 10 ^ fs.length
  rw [takeDigits_of_all hfs]

/-- The value recovered from a `fmt3`-formatted latency is exactly the
rounded value scaled back: `float` applied to the capture of
`time=(\d+\.?\d*)` on `fmt3 q` gives `round(q * 1000) / 1000`. -/
theorem decToRat_fmt3 (n : ℕ) :
    decToRat (natDigits (n / 1000) ++ '.' :: pad3 (n % 1000)) = (n : ℚ) / 1000 := by
  rw [decToRat_split _ _ (natDigits_all_digit _) (pad3_all_digit _)]
  rw [digitsToNat_natDigits, digitsToNat_pad3 _ (Nat.mod_lt _ (by norm_num)), pad3_length]
  have h : 1000 * ((n / 1000 : ℕ) : ℚ) + ((n % 1000 : ℕ) : ℚ) = (n : ℚ) := by
    exact_mod_cast Nat.div_add_mod n 1000
  rw [show (10:ℚ) ^ 3 = 1000 by norm_num]
  field_simp
  linarith

/-! ### Character classes of the generated text -/

/-- Character class of the generator's timestamp strings
(`%Y-%m-%d %H:%M:%S.%f` cut to milliseconds): digits, space, dash, colon,
dot. -/
def pingTsOk (tsStr : List Char) : Prop :=
  ∀ c ∈ tsStr, c.isDigit = true ∨ c = ' ' ∨ c = '-' ∨ c = ':' ∨ c = '.'

/-- Character class of a dotted-quad IP text. -/
def ipOk (ip : List Char) : Prop := ∀ c ∈ ip, c.isDigit = true ∨ c = '.'

/-- The device name contains no `=` (true of every name the generator
uses). -/
def nameOk (name : List Char) : Prop := ∀ c ∈ name, ¬ c = '='

theorem digit_ne {c d : Char} (h : c.isDigit = true) (hd : d.isDigit = false) : ¬ c = d := by
  intro he
  rw [he, hd] at h
  cases h

theorem natDigits_not (n : ℕ) {d : Char} (hd : d.isDigit = false) :
    ∀ c ∈ natDigits n, ¬ c = d :=
  fun c hc => digit_ne (natDigits_all_digit n c hc) hd

theorem forall_mem_append₂ {P : Char → Prop} {a b : List Char}
    (ha : ∀ c ∈ a, P c) (hb : ∀ c ∈ b, P c) : ∀ c ∈ a ++ b, P c := by
  intro c hc
  rcases List.mem_append.mp hc with h | h
  · exact ha c h
  · exact hb c h

theorem forall_mem_cons₂ {P : Char → Prop} {a : Char} {l : List Char}
    (ha : P a) (hl : ∀ c ∈ l, P c) : ∀ c ∈ a :: l, P c := by
  intro c hc
  rcases List.mem_cons.mp hc with rfl | h
  · exact ha
  · exact hl c h

theorem tsOk_not {tsStr : List Char} (hts : pingTsOk tsStr) {d : Char}
    (h0 : ('0').isDigit = true → ¬ d.isDigit = true)
    (h1 : ¬ (' ') = d) (h2 : ¬ ('-') = d) (h3 : ¬ (':') = d) (h4 : ¬ ('.') = d) :
    ∀ c ∈ tsStr, ¬ c = d := by
  intro c hc he
  subst he
  rcases hts c hc with h | h | h | h | h
  · exact h0 (by decide) h
  · exact h1 h.symm
  · exact h2 h.symm
  · exact h3 h.symm
  · exact h4 h.symm

theorem ipOk_not {ip : List Char} (hip : ipOk ip) {d : Char}
    (h0 : ('0').isDigit = true → ¬ d.isDigit = true) (h4 : ¬ ('.') = d) :
    ∀ c ∈ ip, ¬ c = d := by
  intro c hc he
  subst he
  rcases hip c hc with h | h
  · exact h0 (by decide) h
  · exact h4 h.symm

theorem fmt3_chars (x : ℚ) : ∀ c ∈ fmt3 x, c.isDigit = true ∨ c = '.' := by
  intro c hc
  simp only [fmt3] at hc
  rcases List.mem_append.mp hc with h | h
  · exact Or.inl (natDigits_all_digit _ c h)
  · rcases List.mem_cons.mp h with rfl | h
    · exact Or.inr rfl
    · exact Or.inl (pad3_all_digit _ c h)

theorem fmt3_not (x : ℚ) {d : Char} (hd : d.isDigit = false) (h4 : ¬ ('.') = d) :
    ∀ c ∈ fmt3 x, ¬ c = d := by
  intro c hc he
  subst he
  rcases fmt3_chars x c hc with h | h
  · rw [h] at hd; cases hd
  · exact h4 h.symm

theorem fmt1_chars (x : ℚ) : ∀ c ∈ fmt1 x, c.isDigit = true ∨ c = '.' := by
  intro c hc
  simp only [fmt1] at hc
  rcases List.mem_append.mp hc with h | h
  · exact Or.inl (natDigits_all_digit _ c h)
  · rcases List.mem_cons.mp h with rfl | h
    · exact Or.inr rfl
    · rcases List.mem_singleton.mp h with rfl
      exact Or.inl (digitChar_isDigit _)

theorem fmt1_not (x : ℚ) {d : Char} (hd : d.isDigit = false) (h4 : ¬ ('.') = d) :
    ∀ c ∈ fmt1 x, ¬ c = d := by
  intro c hc he
  subst he
  rcases fmt1_chars x c hc with h | h
  · rw [h] at hd; cases hd
  · exact h4 h.symm

/-! ### Search results on each generated line -/

theorem fmt3_eq (q : ℚ) :
    fmt3 q = natDigits ((round (q * 1000)).toNat / 1000) ++
      '.' :: pad3 ((round (q * 1000)).toNat % 1000) := rfl

/-- `icmp_seq=(\d+)` on a generated reply line captures exactly the
sequence digits. -/
theorem reply_searchNum (tsStr ip : List Char) (seq : ℕ) (q : ℚ)
    (hts : pingTsOk tsStr) (hip : ipOk ip) :
    searchNumAfter icmpPat (mkReplyLine tsStr ip seq q) = some (natDigits seq) := by
  have hstruct : mkReplyLine tsStr ip seq q =
      ('[' :: (tsStr ++ (replyMid1 ++ (ip ++ (": ").toList)))) ++
        (icmpPat ++ (natDigits seq ++ (replyMid3 ++ (timePat ++ (fmt3 q ++ replyEnd))))) := by
    rw [mkReplyLine]
    simp [List.append_assoc]
  rw [hstruct]
  have hA : ∀ c ∈ ('[' :: (tsStr ++ (replyMid1 ++ (ip ++ (": ").toList)))), ¬ c = 'i' :=
    forall_mem_cons₂ (by decide)
      (forall_mem_append₂ (tsOk_not hts (by decide) (by decide) (by decide) (by decide) (by decide))
        (forall_mem_append₂ (by decide)
          (forall_mem_append₂ (ipOk_not hip (by decide) (by decide)) (by decide))))
  have hT : headNotDigit (replyMid3 ++ (timePat ++ (fmt3 q ++ replyEnd))) := by
    show (' ').isDigit = false
    decide
  rw [show icmpPat = 'i' :: ("cmp_seq=").toList from rfl]
  rw [searchNum_skip _ _ hA]
  exact searchNum_found _ _ _ _ (natDigits_all_digit _) (natDigits_ne_nil _) hT

/-- `icmp_seq=` never matches on a line without `=`. -/
theorem header_searchNum (name ip : List Char) (hname : nameOk name) (hip : ipOk ip) :
    searchNumAfter icmpPat (mkHeader name ip) = none := by
  apply searchNum_none_eq (by decide)
  intro hc
  rw [mkHeader] at hc
  rcases List.mem_append.mp hc with hc | hc
  rcases List.mem_append.mp hc with hc | hc
  rcases List.mem_append.mp hc with hc | hc
  rcases List.mem_append.mp hc with hc | hc
  · exact absurd hc (by decide)
  · exact hname _ hc rfl
  · exact absurd hc (by decide)
  · rcases hip _ hc with h | h
    · exact absurd h (by decide)
    · exact absurd h (by decide)
  · exact absurd hc (by decide)

theorem statsHeader_searchNum (name : List Char) (hname : nameOk name) :
    searchNumAfter icmpPat (statsHeaderLine name) = none := by
  apply searchNum_none_eq (by decide)
  intro hc
  rw [statsHeaderLine] at hc
  rcases List.mem_append.mp hc with hc | hc
  rcases List.mem_append.mp hc with hc | hc
  · exact absurd hc (by decide)
  · exact hname _ hc rfl
  · exact absurd hc (by decide)

theorem counts_searchNum (total received : ℕ) (loss : ℚ) (hours : ℕ) :
    searchNumAfter icmpPat (countsLine total received loss hours) = none := by
  apply searchNum_none_eq (by decide)
  intro hc
  rw [countsLine] at hc
  rcases List.mem_append.mp hc with hc | hc
  rcases List.mem_append.mp hc with hc | hc
  rcases List.mem_append.mp hc with hc | hc
  rcases List.mem_append.mp hc with hc | hc
  rcases List.mem_append.mp hc with hc | hc
  rcases List.mem_append.mp hc with hc | hc
  rcases List.mem_append.mp hc with hc | hc
  · exact natDigits_not _ (by decide) _ hc rfl
  · exact absurd hc (by decide)
  · exact natDigits_not _ (by decide) _ hc rfl
  · exact absurd hc (by decide)
  · exact fmt1_not _ (by decide) (by decide) _ hc rfl
  · exact absurd hc (by decide)
  · exact natDigits_not _ (by decide) _ hc rfl
  · exact absurd hc (by decide)

theorem replyMid1_split :
    replyMid1 = ("] 64 by").toList ++ ('t' :: ('e' :: ("s from ").toList)) := by decide

theorem replyMid3_split :
    replyMid3 = ' ' :: ('t' :: ('t' :: ('l' :: ("=64 ").toList))) := by decide

/-- `time=(\d+\.?\d*)` on a generated reply line captures exactly the
formatted latency. -/
theorem reply_searchDec (tsStr ip : List Char) (seq : ℕ) (q : ℚ)
    (hts : pingTsOk tsStr) (hip : ipOk ip) :
    searchDecAfter timePat (mkReplyLine tsStr ip seq q) =
      some (natDigits ((round (q * 1000)).toNat / 1000) ++ '.' :: pad3 ((round (q * 1000)).toNat % 1000)) := by
  have hstruct : mkReplyLine tsStr ip seq q =
      ('[' :: (tsStr ++ (("] 64 by").toList))) ++ ('t' :: ('e' :: ((("s from ").toList ++ (ip ++ ((": ").toList ++ (icmpPat ++ (natDigits seq ++ ([' '])))))) ++ ('t' :: ('t' :: ('l' :: (("=64 ").toList ++ (timePat ++ (natDigits ((round (q * 1000)).toNat / 1000) ++ ('.' :: (pad3 ((round (q * 1000)).toNat % 1000) ++ (replyEnd)))))))))))) := by
    rw [mkReplyLine, replyMid1_split, replyMid3_split, fmt3_eq]
    simp [List.append_assoc]
  rw [hstruct]
  have hA1 : ∀ c ∈ ('[' :: (tsStr ++ (("] 64 by").toList))), ¬ c = 't' :=
    forall_mem_cons₂ (by decide)
      (forall_mem_append₂ (tsOk_not hts (by decide) (by decide) (by decide) (by decide) (by decide))
        (by decide))
  have hA2 : ∀ c ∈ ('e' :: (("s from ").toList ++ (ip ++ ((": ").toList ++ (icmpPat ++ (natDigits seq ++ ([' ']))))))), ¬ c = 't' :=
    forall_mem_cons₂ (by decide)
      (forall_mem_append₂ (by decide)
        (forall_mem_append₂ (ipOk_not hip (by decide) (by decide))
          (forall_mem_append₂ (by decide)
            (forall_mem_append₂ (by decide)
              (forall_mem_append₂ (natDigits_not _ (by decide)) (by decide))))))
  have hA3 : ∀ c ∈ ('l' :: (("=64 ").toList)), ¬ c = 't' := by decide
  rw [show timePat = 't' :: ('i' :: ("me=").toList) from rfl]
  rw [searchDec_skip _ _ hA1]
  rw [searchDec_step2 _ (by decide)]
  rw [show ('e' :: ((("s from ").toList ++ (ip ++ ((": ").toList ++ (icmpPat ++ (natDigits seq ++ ([' '])))))) ++ ('t' :: ('t' :: ('l' :: (("=64 ").toList ++ (('t' :: ('i' :: (("me=").toList))) ++ (natDigits ((round (q * 1000)).toNat / 1000) ++ ('.' :: (pad3 ((round (q * 1000)).toNat % 1000) ++ (replyEnd))))))))))) = ('e' :: (("s from ").toList ++ (ip ++ ((": ").toList ++ (icmpPat ++ (natDigits seq ++ ([' ']))))))) ++ ('t' :: ('t' :: ('l' :: (("=64 ").toList ++ (('t' :: ('i' :: (("me=").toList))) ++ (natDigits ((round (q * 1000)).toNat / 1000) ++ ('.' :: (pad3 ((round (q * 1000)).toNat % 1000) ++ (replyEnd))))))))) from rfl]
  rw [searchDec_skip _ _ hA2]
  rw [searchDec_step2 _ (by decide)]
  rw [searchDec_step2 _ (by decide)]
  rw [show ('l' :: (("=64 ").toList ++ (('t' :: ('i' :: (("me=").toList))) ++ (natDigits ((round (q * 1000)).toNat / 1000) ++ ('.' :: (pad3 ((round (q * 1000)).toNat % 1000) ++ (replyEnd))))))) = ('l' :: (("=64 ").toList)) ++ (('t' :: ('i' :: (("me=").toList))) ++ (natDigits ((round (q * 1000)).toNat / 1000) ++ ('.' :: (pad3 ((round (q * 1000)).toNat % 1000) ++ (replyEnd))))) from rfl]
  rw [searchDec_skip _ _ hA3]
  rw [searchDec_found 't' ('i' :: ("me=").toList) _ _ (natDigits_all_digit _)
    (natDigits_ne_nil _) (by show ('.').isDigit = false; decide)]
  rw [takeDecimal_split _ _ _ (natDigits_all_digit _) (pad3_all_digit _)
    (by show (' ').isDigit = false; decide)]

/-- `icmp_seq=` never matches on the rtt summary line (its only `i` is in
`min`, followed by `n`). -/
theorem rtt_searchNum (a b c d : ℚ) : searchNumAfter icmpPat (rttLine a b c d) = none := by
  have hsplit : ("rtt min/avg/max/mdev = ").toList =
      ("rtt m").toList ++ ('i' :: ('n' :: ("/avg/max/mdev = ").toList)) := by decide
  have hstruct : rttLine a b c d =
      ("rtt m").toList ++ ('i' :: ('n' :: (("/avg/max/mdev = ").toList ++ (fmt3 a ++ ('/' :: (fmt3 b ++ ('/' :: (fmt3 c ++ ('/' :: (fmt3 d ++ ((" ms\n").toList))))))))))) := by
    rw [rttLine, hsplit]
    simp [List.append_assoc]
  rw [hstruct]
  have hB : ∀ x ∈ ('n' :: (("/avg/max/mdev = ").toList ++ (fmt3 a ++ ('/' :: (fmt3 b ++ ('/' :: (fmt3 c ++ ('/' :: (fmt3 d ++ ((" ms\n").toList)))))))))), ¬ x = 'i' :=
    forall_mem_cons₂ (by decide)
      (forall_mem_append₂ (by decide)
        (forall_mem_append₂ (fmt3_not _ (by decide) (by decide))
          (forall_mem_cons₂ (by decide)
            (forall_mem_append₂ (fmt3_not _ (by decide) (by decide))
              (forall_mem_cons₂ (by decide)
                (forall_mem_append₂ (fmt3_not _ (by decide) (by decide))
                  (forall_mem_cons₂ (by decide)
                    (forall_mem_append₂ (fmt3_not _ (by decide) (by decide)) (by decide)))))))))
  have hRm : ∀ c ∈ ("rtt m").toList, ¬ c = 'i' := by decide
  rw [show icmpPat = 'i' :: ('c' :: ("mp_seq=").toList) from rfl]
  rw [searchNum_skip _ _ hRm]
  rw [searchNum_step2 _ (by decide)]
  rw [show ('n' :: (("/avg/max/mdev = ").toList ++ (fmt3 a ++ ('/' :: (fmt3 b ++ ('/' :: (fmt3 c ++ ('/' :: (fmt3 d ++ ((" ms\n").toList)))))))))) = ('n' :: (("/avg/max/mdev = ").toList ++ (fmt3 a ++ ('/' :: (fmt3 b ++ ('/' :: (fmt3 c ++ ('/' :: (fmt3 d ++ ((" ms\n").toList)))))))))) ++ ([] : List Char) from by simp]
  rw [searchNum_skip _ _ hB]
  rfl

/-! ### Behaviour of the extraction loop on the generated lines -/

theorem digit_not_ws {c : Char} (h : c.isDigit = true) : c.isWhitespace = false := by
  cases hw : c.isWhitespace
  · rfl
  · exfalso
    rw [Char.isWhitespace] at hw
    simp only [Bool.or_eq_true, decide_eq_true_eq] at hw
    rcases hw with ((rfl | rfl) | rfl) | rfl <;> exact absurd h (by decide)

theorem isBlank_cons_false {c : Char} (h : c.isWhitespace = false) (l : List Char) :
    isBlankL (c :: l) = false := by
  simp [isBlankL, h]

theorem extractObs_cons_skip (hasTs : Bool) (l : List Char) (ls : List (List Char))
    (h : isBlankL l = true ∨ searchNumAfter icmpPat l = none ∨
      searchDecAfter timePat l = none) :
    extractObs hasTs (l :: ls) = extractObs hasTs ls := by
  simp only [extractObs]
  by_cases hb : isBlankL l = true
  · rw [if_pos hb]
  · rw [if_neg hb]
    split
    · rename_i sd td heq1 heq2
      rcases h with h | h | h
      · exact absurd h hb
      · rw [h] at heq1; cases heq1
      · rw [h] at heq2; cases heq2
    · rfl

theorem extractObs_cons_reply (hasTs : Bool) (l : List Char) (ls : List (List Char))
    (sd td : List Char) (hbl : isBlankL l = false)
    (hs : searchNumAfter icmpPat l = some sd) (ht2 : searchDecAfter timePat l = some td) :
    (extractObs hasTs (l :: ls)).1 = decToRat td :: (extractObs hasTs ls).1 ∧
    (extractObs hasTs (l :: ls)).2.1 = digitsToNat sd :: (extractObs hasTs ls).2.1 := by
  simp only [extractObs]
  rw [if_neg (by simp [hbl]), hs, ht2]
  exact ⟨rfl, rfl⟩

theorem extractObs_append (hasTs : Bool) (u v : List (List Char)) :
    extractObs hasTs (u ++ v) =
      ((extractObs hasTs u).1 ++ (extractObs hasTs v).1,
       (extractObs hasTs u).2.1 ++ (extractObs hasTs v).2.1,
       (extractObs hasTs u).2.2 ++ (extractObs hasTs v).2.2) := by
  induction u with
  | nil => simp [extractObs]
  | cons l ls ih =>
    rw [List.cons_append]
    simp only [extractObs]
    split
    · exact ih
    · split
      · split
        · split
          · simp [ih]
          · simp [ih]
        · simp [ih]
      · exact ih

theorem mkHeader_not_blank (name ip : List Char) : isBlankL (mkHeader name ip) = false := by
  rw [mkHeader, show ("PING ").toList = 'P' :: ("ING ").toList from rfl, List.cons_append]
  exact isBlank_cons_false (by decide) _

theorem mkReplyLine_not_blank (tsStr ip : List Char) (seq : ℕ) (q : ℚ) :
    isBlankL (mkReplyLine tsStr ip seq q) = false := by
  rw [mkReplyLine]
  exact isBlank_cons_false (by decide) _

/-- Extraction over the reply lines alone recovers the sequence numbers
and the formatted latencies. -/
theorem extract_replies (hasTs : Bool) (ip : List Char)
    (pings : List (List Char × ℕ × ℚ)) (hip : ipOk ip)
    (hts : ∀ p ∈ pings, pingTsOk p.1) :
    (extractObs hasTs (pings.map (fun p => mkReplyLine p.1 ip p.2.1 p.2.2))).1 =
      pings.map (fun p => (((round (p.2.2 * 1000)).toNat : ℚ)) / 1000) ∧
    (extractObs hasTs (pings.map (fun p => mkReplyLine p.1 ip p.2.1 p.2.2))).2.1 =
      pings.map (fun p => p.2.1) := by
  induction pings with
  | nil => exact ⟨rfl, rfl⟩
  | cons p ps ih =>
    have hts1 := hts p (by simp)
    obtain ⟨ih1, ih2⟩ := ih (fun r hr => hts r (by simp [hr]))
    rw [List.map_cons]
    have hrep := extractObs_cons_reply hasTs (mkReplyLine p.1 ip p.2.1 p.2.2)
      (List.map (fun r => mkReplyLine r.1 ip r.2.1 r.2.2) ps) _ _
      (mkReplyLine_not_blank _ _ _ _) (reply_searchNum _ _ _ _ hts1 hip)
      (reply_searchDec _ _ _ _ hts1 hip)
    constructor
    · rw [hrep.1, ih1, List.map_cons, decToRat_fmt3]
    · rw [hrep.2, ih2, List.map_cons, digitsToNat_natDigits]

/-- Extraction over a whole generated file recovers the sequence numbers
and the formatted latencies: the header and the summary block contribute
nothing. -/
theorem extractObs_gen (hasTs : Bool) (name ip : List Char) (total hours : ℕ)
    (pings : List (List Char × ℕ × ℚ))
    (hname : nameOk name) (hip : ipOk ip) (hts : ∀ p ∈ pings, pingTsOk p.1) :
    (extractObs hasTs (create_ping_file name ip total hours pings)).1 =
      pings.map (fun p => (((round (p.2.2 * 1000)).toNat : ℚ)) / 1000) ∧
    (extractObs hasTs (create_ping_file name ip total hours pings)).2.1 =
      pings.map (fun p => p.2.1) := by
  rw [create_ping_file]
  rw [extractObs_cons_skip _ _ _ (Or.inr (Or.inl (header_searchNum name ip hname hip)))]
  rw [extractObs_append]
  have hsum : ∀ w : List (List Char),
      w = (if pings.isEmpty then [] else
        [ ("\n").toList
        , statsHeaderLine name
        , countsLine total (pings.map (fun p => p.2.2)).length
            (((total : ℚ) - ((pings.map (fun p => p.2.2)).length : ℚ)) / (total : ℚ) * 100) hours
        , rttLine (listMinQ (pings.map (fun p => p.2.2)))
            ((pings.map (fun p => p.2.2)).sum / (((pings.map (fun p => p.2.2)).length : ℚ)))
            (listMaxQ (pings.map (fun p => p.2.2)))
            ((listMaxQ (pings.map (fun p => p.2.2)) - listMinQ (pings.map (fun p => p.2.2))) / 4) ]) →
      extractObs hasTs w = ([], [], []) := by
    intro w hw
    split at hw
    · rw [hw]; rfl
    · rw [hw]
      rw [extractObs_cons_skip _ _ _ (Or.inl (by decide))]
      rw [extractObs_cons_skip _ _ _ (Or.inr (Or.inl (statsHeader_searchNum name hname)))]
      rw [extractObs_cons_skip _ _ _ (Or.inr (Or.inl (counts_searchNum _ _ _ _)))]
      rw [extractObs_cons_skip _ _ _ (Or.inr (Or.inl (rtt_searchNum _ _ _ _)))]
      rfl
  rw [hsum _ rfl]
  obtain ⟨h1, h2⟩ := extract_replies hasTs ip pings hip hts
  rw [h1, h2]
  simp

/-! ### C6: round trip through the synthetic-log generator -/

/-- Rounding a nonnegative value to three decimals moves it by at most
half of the last decimal place. -/
theorem round3_tol (q : ℚ) (hq : 0 ≤ q) :
    |(((round (q * 1000)).toNat : ℚ)) / 1000 - q| ≤ 1 / 2000 := by
  have h0 : (0 : ℤ) ≤ round (q * 1000) := by
    rw [round_eq]
    apply Int.le_floor.mpr
    push_cast
    linarith
  have hcast : (((round (q * 1000)).toNat : ℤ) : ℚ) = ((round (q * 1000) : ℤ) : ℚ) := by
    exact_mod_cast congrArg (fun z : ℤ => (z : ℚ)) (Int.toNat_of_nonneg h0)
  have habs := abs_sub_round (q * 1000)
  rw [abs_sub_comm] at habs
  have hrw : (((round (q * 1000)).toNat : ℚ)) / 1000 - q =
      (((round (q * 1000) : ℤ) : ℚ) - q * 1000) / 1000 := by
    push_cast at hcast ⊢
    rw [hcast]
    ring
  rw [hrw, abs_div, abs_of_pos (by norm_num : (0:ℚ) < 1000)]
  linarith

/-- C6: parsing a log produced by `create_ping_file` recovers exactly the
written sequence numbers, and the written latencies up to the
three-decimal formatting: each recovered latency is the written one
rounded to a multiple of `1/1000`, hence within `1/2000` of it. The
character-class hypotheses state what the generator always produces:
datetime timestamp strings, a dotted-quad IP, a name without `=`. -/
theorem C6_round_trip (name ip : List Char) (total hours : ℕ)
    (pings : List (List Char × ℕ × ℚ)) (env : Env) (fn : List Char)
    (hname : nameOk name) (hip : ipOk ip)
    (hts : ∀ p ∈ pings, pingTsOk p.1) (hq : ∀ p ∈ pings, 0 ≤ p.2.2)
    (hne : pings ≠ []) :
    ∃ a : Analysis,
      analyze_ping_file env fn (some (create_ping_file name ip total hours pings)) = some a ∧
      a.sequences = pings.map (fun p => p.2.1) ∧
      a.times = pings.map (fun p => (((round (p.2.2 * 1000)).toNat : ℚ)) / 1000) ∧
      ∀ p ∈ pings, |(((round (p.2.2 * 1000)).toNat : ℚ)) / 1000 - p.2.2| ≤ 1 / 2000 := by
  obtain ⟨he1, he2⟩ :=
    extractObs_gen (hasTimestampsIn (create_ping_file name ip total hours pings))
      name ip total hours pings hname hip hts
  have hne1 : (extractObs (hasTimestampsIn (create_ping_file name ip total hours pings))
      (create_ping_file name ip total hours pings)).1.isEmpty = false := by
    rw [he1]
    cases pings with
    | nil => exact absurd rfl hne
    | cons p ps => rfl
  have hS : (analyze_ping_file env fn
      (some (create_ping_file name ip total hours pings))).isSome = true := by
    rw [analyze_ping_file]
    dsimp only
    rw [if_neg (by simp [hne1])]
    rfl
  refine ⟨(analyze_ping_file env fn
      (some (create_ping_file name ip total hours pings))).get hS,
    (Option.some_get hS).symm, ?_, ?_, ?_⟩
  · obtain ⟨-, hs, -, -, -, -, -, -⟩ := analyze_fields (Option.some_get hS).symm
    rw [hs, he2]
  · obtain ⟨ht, -, -, -, -, -, -, -⟩ := analyze_fields (Option.some_get hS).symm
    rw [ht, he1]
  · intro p hp
    exact round3_tol p.2.2 (hq p hp)

/-- The realized pings of the witness log: two successful pings with
datetime timestamp strings, sequence numbers 1 and 2, latencies 1.5 ms
and 2.5 ms. -/
def pingsW : List (List Char × ℕ × ℚ) :=
  [ (("2024-01-01 10:00:00.000").toList, 1, 3/2)
  , (("2024-01-01 10:00:01.003").toList, 2, 5/2) ]

/-- Witness for C6: a concrete generated log (device name `dev`, IP
`10.0.0.1`, three attempts, two successes) satisfies every hypothesis of
`C6_round_trip`, so its parse recovers sequences `[1, 2]` and the
formatted latencies. -/
theorem C6_round_trip_witness :
    ∃ a : Analysis,
      analyze_ping_file envNone fnameT
        (some (create_ping_file ("dev").toList ("10.0.0.1").toList 3 1 pingsW)) = some a ∧
      a.sequences = pingsW.map (fun p => p.2.1) ∧
      a.times = pingsW.map (fun p => (((round (p.2.2 * 1000)).toNat : ℚ)) / 1000) ∧
      ∀ p ∈ pingsW, |(((round (p.2.2 * 1000)).toNat : ℚ)) / 1000 - p.2.2| ≤ 1 / 2000 :=
  C6_round_trip ("dev").toList ("10.0.0.1").toList 3 1 pingsW envNone fnameT
    (by unfold nameOk; decide) (by unfold ipOk; decide) (by unfold pingTsOk; decide)
    (by intro p hp; fin_cases hp <;> norm_num [pingsW]) (by decide)

end Ping
